import Mathlib

/-!
# open-bamz-pwa: precache manifest crawler

A shallow embedding of `src/index.mjs` (the reference extractors, the manifest
entry store, the seeding of the worklist, the drain loop of
`buildServiceWorker` and the file-change listeners) together with the
properties established about it.

JavaScript strings are modelled by `String`, every operation being defined on
the list of characters (`String.data`); a character stands for one code unit.
Collaborators that are not part of the repository (`fetch`, `readFile`,
`acorn.parse`, `cheerio.load`, `path.join`, `path.dirname`, `path.relative`,
`Date.now`) are fields of the structure `World`.
-/

namespace OpenBamzPwa

/-! ## JavaScript string primitives -/

/-- `s.startsWith(p)`. -/
def startsWith (s p : String) : Bool :=
  p.data.isPrefixOf s.data

/-- `s.endsWith(p)`. -/
def endsWith (s p : String) : Bool :=
  p.data.reverse.isPrefixOf s.data.reverse

/-- Substring test on character lists: `p` occurs somewhere in the list. -/
def includesL (p : List Char) : List Char → Bool
  | [] => p.isPrefixOf []
  | c :: t => p.isPrefixOf (c :: t) || includesL p t

/-- `s.includes(p)`. -/
def includes (s p : String) : Bool :=
  includesL p.data s.data

/-- Replacement of the first occurrence of `p` on character lists. -/
def replaceFirstL (p r : List Char) : List Char → List Char
  | [] => if p.isPrefixOf [] then r else []
  | c :: t => if p.isPrefixOf (c :: t) then r ++ (c :: t).drop p.length
              else c :: replaceFirstL p r t

/-- `s.replace(p, r)` for a string pattern `p`: only the first occurrence is
replaced. -/
def replaceFirst (s p r : String) : String :=
  ⟨replaceFirstL p.data r.data s.data⟩

/-- Position of the first `c` in the list, counted from `pos`; `-1` if none. -/
def indexOfL (c : Char) : List Char → Nat → Int
  | [], _ => -1
  | d :: t, pos => if d = c then (pos : Int) else indexOfL c t (pos + 1)

/-- `s.indexOf(c, start)` for a one-character pattern. -/
def indexOfFrom (s : String) (c : Char) (start : Nat) : Int :=
  indexOfL c (s.data.drop start) start

/-- Position of the last `c` in the list, counted from `pos`; `-1` if none. -/
def lastIndexOfL (c : Char) : List Char → Nat → Int
  | [], _ => -1
  | d :: t, pos =>
    let r := lastIndexOfL c t (pos + 1)
    if r = -1 then (if d = c then (pos : Int) else -1) else r

/-- `s.lastIndexOf(c)` for a one-character pattern. -/
def lastIndexOf (s : String) (c : Char) : Int :=
  lastIndexOfL c s.data 0

/-- `s.substring(0, e)`: a negative end counts as `0`. -/
def substring0 (s : String) (e : Int) : String :=
  ⟨s.data.take e.toNat⟩

/-- The apostrophe character. -/
def apostrophe : Char := Char.ofNat 39

/-- `s.replace(/^'/, "")`: one leading apostrophe is removed. -/
def stripLeadingQuote (s : String) : String :=
  match s.data with
  | c :: t => if c = apostrophe then ⟨t⟩ else s
  | [] => s

/-- `s.replace(/'$/, "")`: one trailing apostrophe is removed. -/
def stripTrailingQuote (s : String) : String :=
  match s.data.reverse with
  | c :: t => if c = apostrophe then ⟨t.reverse⟩ else s
  | [] => s

/-- `s.replace(/^\.\//, "")`. -/
def stripDotSlash (s : String) : String :=
  match s.data with
  | '.' :: '/' :: t => ⟨t⟩
  | _ => s

/-! ## JavaScript values and syntax trees -/

/-- Errors thrown by the modelled code. -/
inductive JsError where
  | typeError
  | fetchRejected
  | readFailed
  | parseFailed
  deriving DecidableEq, Repr

/-- JavaScript values as they occur in a syntax tree produced by the parser:
primitives, objects (ordered own enumerable properties) and arrays. A regular
expression object is an object without enumerable properties. -/
inductive JsVal where
  | undefined
  | null
  | bool (b : Bool)
  | num (n : Int)
  | str (s : String)
  | obj (props : List (String × JsVal))
  | arr (items : List JsVal)

namespace JsVal

/-- Truthiness of a value (`if (v)`). -/
def truthy : JsVal → Bool
  | undefined => false
  | null => false
  | bool b => b
  | num n => n != 0
  | str s => s != ""
  | obj _ => true
  | arr _ => true

/-- The test `v && typeof v === 'object'`. -/
def isObjectLike : JsVal → Bool
  | obj _ => true
  | arr _ => true
  | _ => false

/-- Lookup of an own property in an ordered property list. -/
def lookup (k : String) : List (String × JsVal) → JsVal
  | [] => undefined
  | (k', v) :: rest => if k' = k then v else lookup k rest

/-- Property read `v[k]` (for the non-index keys used by the extractor): throws
on `undefined` and `null`, gives `undefined` on other values lacking it. -/
def getProp (v : JsVal) (k : String) : Except JsError JsVal :=
  match v with
  | undefined => .error .typeError
  | null => .error .typeError
  | obj props => .ok (lookup k props)
  | _ => .ok undefined

/-- Strict equality `v === s` with a string. -/
def isStr (v : JsVal) (s : String) : Bool :=
  match v with
  | str t => t == s
  | _ => false

end JsVal

/-! ## JS import extractor (`findImportURLs`, lines 97-125) -/

/-- The part of `findImportURLs` before the traversal of the children: the
specifier pushed for the node itself. A static import pushes
`node.source.value` as it is; a dynamic import pushes `node.source.value` with
one leading and one trailing apostrophe removed when that value is truthy, and
calling `.replace` on a truthy value that is not a string throws. -/
def ownImports (node : JsVal) : Except JsError (List JsVal) :=
  match node.getProp "type" with
  | .error e => .error e
  | .ok ty =>
    if ty.isStr "ImportDeclaration" then
      match node.getProp "source" with
      | .error e => .error e
      | .ok source =>
        match source.getProp "value" with
        | .error e => .error e
        | .ok value => .ok [value]
    else if ty.isStr "ImportExpression" then
      match node.getProp "source" with
      | .error e => .error e
      | .ok source =>
        match source.getProp "value" with
        | .error e => .error e
        | .ok value =>
          if value.truthy then
            match value with
            | .str s => .ok [.str (stripTrailingQuote (stripLeadingQuote s))]
            | _ => .error .typeError
          else .ok []
    else .ok []

mutual
/-- `findImportURLs(node)`: the specifier of the node itself, then those of
every child `node[key]` that is truthy and of type object, in key order. -/
def findImportURLs : JsVal → Except JsError (List JsVal)
  | .obj props =>
    match ownImports (.obj props) with
    | .error e => .error e
    | .ok urls =>
      match findInProps props with
      | .error e => .error e
      | .ok sub => .ok (urls ++ sub)
  | .arr items => findInItems items
  | v => ownImports v
/-- The loop `for (let key in node)` over the properties of an object. -/
def findInProps : List (String × JsVal) → Except JsError (List JsVal)
  | [] => .ok []
  | (_, v) :: rest =>
    match (if v.isObjectLike then findImportURLs v else .ok []) with
    | .error e => .error e
    | .ok a =>
      match findInProps rest with
      | .error e => .error e
      | .ok b => .ok (a ++ b)
/-- The loop `for (let key in node)` over the items of an array. -/
def findInItems : List JsVal → Except JsError (List JsVal)
  | [] => .ok []
  | v :: rest =>
    match (if v.isObjectLike then findImportURLs v else .ok []) with
    | .error e => .error e
    | .ok a =>
      match findInItems rest with
      | .error e => .error e
      | .ok b => .ok (a ++ b)
end

/-! ## HTML reference extractor (`extractUrlsFromHTML`, lines 83-96) -/

/-- An element of a parsed HTML document with the three attributes the
extractor reads (`none`: the attribute is absent). -/
structure Element where
  tag : String
  src : Option String
  href : Option String
  rel : Option String
  deriving DecidableEq, Repr

/-- The selector `script[src], link[href]`. -/
def selected (e : Element) : Bool :=
  (e.tag == "script" && e.src.isSome) || (e.tag == "link" && e.href.isSome)

/-- The value of `$(element).attr('src') || $(element).attr('href')`. -/
def srcOrHref (e : Element) : Option String :=
  match e.src with
  | some s => if s != "" then some s else e.href
  | none => e.href

/-- The callback of `.each`: the URL pushed for one selected element, if any. -/
def pushedUrl (e : Element) : Option String :=
  match srcOrHref e with
  | some s =>
    if s != "" && startsWith s "https://" && e.rel != some "preconnect" then some s
    else none
  | none => none

/-- `extractUrlsFromHTML`, on the elements of the loaded document in document
order. -/
def extractUrlsFromHTML (doc : List Element) : List String :=
  (doc.filter selected).filterMap pushedUrl

/-! ## Collaborators -/

/-- What `fetch` resolves to: `response.ok`, the `content-type` header (`none`
when `headers.get` answers `null`) and the body text. -/
structure Response where
  ok : Bool
  contentType : Option String
  text : String
  deriving DecidableEq, Repr

/-- The collaborators of the crawler. `fetch` and `readFile` answer `none` when
the promise rejects, the two parsers answer `none` when `acorn.parse` throws
(`parseLatest` is the call of `extractUrlsFromJsContent`, `parse2022` the one of
`extractUrlsFromJS`), `loadHtml` gives the elements of the document in document
order, and `dateNow k` is the value of the `k`-th call of `Date.now()`. -/
structure World where
  fetch : String → Option Response
  readFile : String → Option String
  parseLatest : String → Option JsVal
  parse2022 : String → Option JsVal
  loadHtml : String → List Element
  pathJoin : String → String → String
  pathDirname : String → String
  pathRelative : String → String → String
  dateNow : Nat → Nat

/-- `isJavascript(contentType)` (lines 208-210): `.includes` on `null` throws. -/
def isJavascript (contentType : Option String) : Except JsError Bool :=
  match contentType with
  | none => .error .typeError
  | some ct => .ok (includes ct "javascript")

/-- The condition `response.ok && isJavascript(response.headers.get("content-type"))`:
the header is only looked at when `response.ok` holds. -/
def okAndJavascript (r : Response) : Except JsError Bool :=
  if r.ok then isJavascript r.contentType else .ok false

/-- `extractUrlsFromJsContent` (lines 127-143): any error of the parser or of
the traversal is caught and leaves the result empty. -/
def extractUrlsFromJsContent (w : World) (content : String) : List JsVal :=
  match w.parseLatest content with
  | none => []
  | some tree =>
    match findImportURLs tree with
    | .ok urls => urls
    | .error _ => []

/-- `extractUrlsFromJS` (lines 145-158): reading, parsing and traversal are all
inside the `try`. -/
def extractUrlsFromJS (w : World) (file : String) : List JsVal :=
  match w.readFile file with
  | none => []
  | some content =>
    match w.parse2022 content with
    | none => []
    | some tree =>
      match findImportURLs tree with
      | .ok urls => urls
      | .error _ => []

/-! ## Manifest entry store (lines 221-241) -/

/-- An entry of `additionalManifestEntries`; `revision` is the number whose
decimal rendering is stored. -/
structure ManifestEntry where
  revision : Nat
  url : String
  deriving DecidableEq, Repr

/-- An element of `filesToAnalyze`: a content-bearing task has `fileContent`, a
file-backed task has `filePath`. -/
structure Task where
  baseUrl : String
  fileContent : Option String
  filePath : Option String
  deriving DecidableEq, Repr

/-- The mutable locals of `buildServiceWorker`; `clock` counts the calls of
`Date.now()` made so far. -/
structure State where
  filesToAnalyze : List Task
  globPatterns : List String
  additionalManifestEntries : List ManifestEntry
  clock : Nat
  deriving DecidableEq, Repr

/-- `localBaseUrl` (line 229). -/
def localBaseUrl : String := "http://localhost:3000"

/-- The string `"?appName=" + appName`. -/
def appNameParam (appName : String) : String := "?appName=" ++ appName

/-- The two rewrites at the head of `addToManifestEntries` (lines 232-237): the
local origin prefix and the first `?appName=<app>` are removed. -/
def canonicalUrl (appName url : String) : String :=
  let url := if startsWith url localBaseUrl then replaceFirst url localBaseUrl "" else url
  if includes url (appNameParam appName) then replaceFirst url (appNameParam appName) ""
  else url

/-- `addToManifestEntries(url)` (lines 231-241). -/
def addToManifestEntries (w : World) (appName : String) (s : State) (url : String) : State :=
  let url := canonicalUrl appName url
  if !s.globPatterns.contains url && !s.additionalManifestEntries.any (fun e => e.url == url) then
    { s with
      additionalManifestEntries :=
        s.additionalManifestEntries ++ [{ revision := w.dateNow s.clock, url := url }]
      clock := s.clock + 1 }
  else s

/-- The locals right after line 243: empty worklist, empty glob patterns and
the two fixed entries. -/
def initialState (w : World) (appName : String) : State :=
  { filesToAnalyze := []
    globPatterns := []
    additionalManifestEntries :=
      [{ revision := w.dateNow 0, url := "index.html" },
       { revision := w.dateNow 1, url := "/_openbamz_admin.js?appName=" ++ appName }]
    clock := 2 }

/-! ## Seeding of the worklist (lines 243-300) -/

/-- Truthiness of an optional string field (`undefined` and `""` are falsy). -/
def truthyField (v : Option String) : Bool :=
  match v with
  | some x => x != ""
  | none => false

/-- A `for ... of` loop whose body may throw: the first error ends the loop. -/
def forEachE {σ α : Type} (body : σ → α → Except JsError σ) : σ → List α → Except JsError σ
  | s, [] => .ok s
  | s, a :: rest =>
    match body s a with
    | .error e => .error e
    | .ok s1 => forEachE body s1 rest

/-- The plugin data of one installed extension, as far as the build reads it. -/
structure PluginData where
  frontEndLib : Option String
  frontEndFullPath : String
  deriving DecidableEq, Repr

/-- The application context: the `url` fields of
`pluginsData["open-bamz-pwa"].pluginSlots.urlsToCache` (`none` when the slot is
missing) and the plugins in the order of `Object.keys`. -/
structure AppContext where
  urlsToCache : Option (List String)
  pluginsData : List (String × PluginData)

/-- Pushing a content-bearing task when the response is ok and JavaScript
(lines 256-261, 328-333, 354-359). -/
def pushIfJavascript (s : State) (baseUrl : String) (r : Response) : Except JsError State :=
  match okAndJavascript r with
  | .error e => .error e
  | .ok true =>
    .ok { s with filesToAnalyze :=
            s.filesToAnalyze ++ [{ baseUrl := baseUrl, fileContent := some r.text, filePath := none }] }
  | .ok false => .ok s

/-- The body of the loop over `urlsToCache` (lines 246-262). -/
def seedUrlToCache (w : World) (appName : String) (s : State) (u : String) :
    Except JsError State :=
  let s := addToManifestEntries w appName s u
  let url := if !startsWith u "/" then "/" ++ u else u
  let url := localBaseUrl ++ url
  match w.fetch (url ++ "?appName=" ++ appName) with
  | none => .error .fetchRejected
  | some r => pushIfJavascript s url r

/-- The body of the loop over the listed files (lines 266-283). -/
def seedFile (w : World) (filesDirectory : String) (s : State) (f : String) : State :=
  let filePath := w.pathRelative filesDirectory f
  if filePath == "sw.js" then s
  else
    let s :=
      if endsWith f ".html" || endsWith f ".js" || endsWith f ".mjs" then
        { s with filesToAnalyze :=
            s.filesToAnalyze ++ [{ baseUrl := filePath, fileContent := none, filePath := some f }] }
      else s
    if filePath == "index.html" then s
    else { s with globPatterns := s.globPatterns ++ [filePath] }

/-- The loop over the listed files (lines 266-283). -/
def seedFiles (w : World) (filesDirectory : String) (s : State) (files : List String) : State :=
  files.foldl (seedFile w filesDirectory) s

/-- The body of the loop over the plugins (lines 286-300). -/
def seedPlugin (w : World) (appName : String) (s : State) (p : String × PluginData) : State :=
  match p.2.frontEndLib with
  | some lib =>
    if lib != "" then
      let url := "/plugin/" ++ p.1 ++ "/" ++ lib
      let s := addToManifestEntries w appName s url
      { s with filesToAnalyze :=
          s.filesToAnalyze ++
            [{ baseUrl := url, fileContent := none,
               filePath := some (w.pathJoin p.2.frontEndFullPath lib) }] }
    else s
  | none => s

/-- The file-backed task queued for a plugin with a front-end library (lines
295-298). -/
def pluginTask (w : World) (p : String × PluginData) : Option Task :=
  match p.2.frontEndLib with
  | some lib =>
    if lib != "" then
      some { baseUrl := "/plugin/" ++ p.1 ++ "/" ++ lib, fileContent := none,
             filePath := some (w.pathJoin p.2.frontEndFullPath lib) }
    else none
  | none => none

/-- The file-backed tasks queued for a listing (lines 270-276). -/
def listingTasks (w : World) (filesDirectory : String) (files : List String) : List Task :=
  (files.filter (fun f => w.pathRelative filesDirectory f != "sw.js" &&
      (endsWith f ".html" || endsWith f ".js" || endsWith f ".mjs"))).map
    (fun f => { baseUrl := w.pathRelative filesDirectory f, fileContent := none,
                filePath := some f })

/-- Everything before the drain loop (lines 221-300). -/
def seed (w : World) (ctx : AppContext) (appName filesDirectory : String)
    (files : List String) : Except JsError State :=
  match forEachE (seedUrlToCache w appName) (initialState w appName)
      (ctx.urlsToCache.getD []) with
  | .error e => .error e
  | .ok s =>
    .ok ((ctx.pluginsData).foldl (seedPlugin w appName) (seedFiles w filesDirectory s files))

/-! ## Drain loop (lines 303-373) -/

/-- The extraction at the head of the loop body (lines 306-317). -/
def taskUrls (w : World) (file : Task) : Except JsError (List JsVal) :=
  if truthyField file.fileContent then
    .ok (extractUrlsFromJsContent w (file.fileContent.getD ""))
  else
    match file.filePath with
    | none => .error .typeError
    | some f =>
      if endsWith f ".html" then
        match w.readFile f with
        | none => .error .readFailed
        | some content => .ok ((extractUrlsFromHTML (w.loadHtml content)).map JsVal.str)
      else if endsWith f ".js" || endsWith f ".mjs" then .ok (extractUrlsFromJS w f)
      else .ok []

/-- The value of `fullUrl` computed in the branch of a task without `filePath`
(lines 338-351), `url` being the reference as extracted. -/
def resolveFromContent (w : World) (appName baseUrl url : String) : String :=
  let url := stripDotSlash url
  let fullUrl :=
    if startsWith url "/" then substring0 baseUrl (indexOfFrom baseUrl '/' 9) ++ url
    else if startsWith baseUrl "http" then substring0 baseUrl (lastIndexOf baseUrl '/' + 1) ++ url
    else w.pathJoin (w.pathDirname baseUrl) url
  if startsWith fullUrl localBaseUrl then fullUrl ++ appNameParam appName else fullUrl

/-- The three branches of the loop over the references (lines 321-370): the
state after the possible push, and the `fullUrl` to record. -/
def resolveUrl (w : World) (appName : String) (file : Task) (s : State) (url : String) :
    Except JsError (State × String) :=
  if startsWith url "http" then
    match w.fetch url with
    | none => .error .fetchRejected
    | some r =>
      match pushIfJavascript s url r with
      | .error e => .error e
      | .ok s1 => .ok (s1, url)
  else if !truthyField file.filePath then
    let fullUrl := resolveFromContent w appName file.baseUrl url
    match w.fetch fullUrl with
    | none => .error .fetchRejected
    | some r =>
      match pushIfJavascript s fullUrl r with
      | .error e => .error e
      | .ok s1 => .ok (s1, fullUrl)
  else
    let fullUrl := w.pathJoin (w.pathDirname file.baseUrl) url
    .ok ({ s with filesToAnalyze :=
             s.filesToAnalyze ++
               [{ baseUrl := fullUrl, fileContent := none,
                  filePath := some (w.pathJoin (w.pathDirname (file.filePath.getD "")) url) }] },
         fullUrl)

/-- The body of the loop over the references (lines 320-372); `url.startsWith`
throws when the extracted value is not a string. -/
def processUrl (w : World) (appName : String) (file : Task) (s : State) (u : JsVal) :
    Except JsError State :=
  match u with
  | .str url =>
    match resolveUrl w appName file s url with
    | .error e => .error e
    | .ok (s1, fullUrl) => .ok (addToManifestEntries w appName s1 fullUrl)
  | _ => .error .typeError

/-- One iteration of the `while` loop (lines 304-372) on a non-empty worklist:
the head is removed and analysed. On an empty worklist nothing happens. -/
def drainStep (w : World) (appName : String) (s : State) : Except JsError State :=
  match s.filesToAnalyze with
  | [] => .ok s
  | file :: rest =>
    match taskUrls w file with
    | .error e => .error e
    | .ok urls => forEachE (processUrl w appName file) { s with filesToAnalyze := rest } urls

/-- How a run of the loop ends: with an empty worklist, with an exception, or
with the iteration budget of the model used up. -/
inductive Outcome where
  | done (s : State)
  | threw (e : JsError)
  | outOfFuel (s : State)
  deriving DecidableEq, Repr

/-- The `while (filesToAnalyze.length > 0)` loop, run for at most `fuel`
iterations. -/
def drain (w : World) (appName : String) : Nat → State → Outcome
  | 0, s => if s.filesToAnalyze.isEmpty then .done s else .outOfFuel s
  | fuel + 1, s =>
    if s.filesToAnalyze.isEmpty then .done s
    else
      match drainStep w appName s with
      | .error e => .threw e
      | .ok s1 => drain w appName fuel s1

/-- `buildServiceWorker(appName)` up to the call of the precache injector
(lines 212-373): the outcome carries the `globPatterns` and
`additionalManifestEntries` handed over. -/
def buildServiceWorker (w : World) (ctx : AppContext) (appName filesDirectory : String)
    (files : List String) (fuel : Nat) : Outcome :=
  match seed w ctx appName filesDirectory files with
  | .error e => .threw e
  | .ok s => drain w appName fuel s

/-! ## Rebuild trigger (lines 395-408) -/

/-- The two notifications the plugin listens to. -/
inductive FileEvent where
  | fileWritten
  | fileDeleted
  deriving DecidableEq, Repr

/-- The listeners registered on `fileWritten` and `fileDeleted` (both have the
same body): the list of applications for which `buildServiceWorker` is called,
given the answer of `hasCurrentPlugin`. -/
def onFileEvent (hasCurrentPlugin : String → Bool) (event : FileEvent)
    (appName relativePath : String) : List String :=
  match event with
  | .fileWritten =>
    if relativePath == "sw.js" then []
    else if hasCurrentPlugin appName then [appName]
    else []
  | .fileDeleted =>
    if relativePath == "sw.js" then []
    else if hasCurrentPlugin appName then [appName]
    else []

/-! ## Derived notions used in the statements -/

/-- The `url` fields of `additionalManifestEntries`, in order. -/
def entryUrls (s : State) : List String :=
  s.additionalManifestEntries.map (fun e => e.url)

/-- A sequence of calls of `addToManifestEntries`, each made with the glob
patterns current at the time of the call. -/
def addAll (w : World) (appName : String) (s : State) (calls : List (List String × String)) :
    State :=
  calls.foldl (fun s c => addToManifestEntries w appName { s with globPatterns := c.1 } c.2) s

/-! ## A concrete file-system path model and a base world for examples -/

/-- Splitting of a character list at every `/`. -/
def splitSlash : List Char → List (List Char)
  | [] => [[]]
  | c :: t =>
    match splitSlash t with
    | [] => [[c]]
    | seg :: rest => if c = '/' then [] :: seg :: rest else (c :: seg) :: rest

/-- The segment stack of `path.normalize`: empty and `.` segments are dropped,
`..` removes the segment before it when there is one to remove. -/
def normalizeSegments (isAbsolute : Bool) : List (List Char) → List (List Char) → List (List Char)
  | acc, [] => acc.reverse
  | acc, seg :: rest =>
    if seg = [] || seg = ['.'] then normalizeSegments isAbsolute acc rest
    else if seg = ['.', '.'] then
      match acc with
      | [] =>
        if isAbsolute then normalizeSegments isAbsolute [] rest
        else normalizeSegments isAbsolute [seg] rest
      | top :: below =>
        if top = ['.', '.'] then normalizeSegments isAbsolute (seg :: acc) rest
        else normalizeSegments isAbsolute below rest
    else normalizeSegments isAbsolute (seg :: acc) rest

/-- A model of `path.posix.normalize`. -/
def posixNormalize (p : String) : String :=
  if p.data = [] then "."
  else
    let isAbsolute := p.data.head? = some '/'
    let trailing := p.data.getLast? = some '/'
    let body := List.intercalate ['/'] (normalizeSegments isAbsolute [] (splitSlash p.data))
    let body :=
      if body = [] then (if isAbsolute then [] else ['.'])
      else if trailing then body ++ ['/'] else body
    if isAbsolute then ⟨'/' :: body⟩ else ⟨body⟩

/-- A model of `path.posix.join` for two arguments. -/
def posixJoin (a b : String) : String :=
  if a.data = [] then posixNormalize b
  else if b.data = [] then posixNormalize a
  else posixNormalize (a ++ "/" ++ b)

/-- A model of `path.posix.dirname`. -/
def posixDirname (p : String) : String :=
  if p.data = [] then "."
  else
    let r := (p.data.reverse.dropWhile (fun c => c == '/')).dropWhile (fun c => c != '/')
    match r with
    | [] => if p.data.head? = some '/' then "/" else "."
    | _ :: before => if before = [] then "/" else ⟨before.reverse⟩

/-- A world in which nothing can be fetched, read or parsed; paths follow the
posix model and every call of `Date.now()` answers `0`. -/
def baseWorld : World :=
  { fetch := fun _ => none
    readFile := fun _ => none
    parseLatest := fun _ => none
    parse2022 := fun _ => none
    loadHtml := fun _ => []
    pathJoin := posixJoin
    pathDirname := posixDirname
    pathRelative := fun _ f => f
    dateNow := fun _ => 0 }

/-! ## Syntax trees as the parser builds them -/

/-- A `Literal` node with a string value. -/
def stringLiteral (pos : Int) (value raw : String) : JsVal :=
  .obj [("type", .str "Literal"), ("start", .num pos), ("end", .num (pos + raw.length)),
        ("value", .str value), ("raw", .str raw)]

/-- The node of `import "<spec>"` (a static import without bindings). -/
def importDeclaration (pos : Int) (spec raw : String) : JsVal :=
  .obj [("type", .str "ImportDeclaration"), ("start", .num pos),
        ("end", .num (pos + 7 + raw.length)), ("specifiers", .arr []),
        ("source", stringLiteral (pos + 7) spec raw)]

/-- The node of `import(<argument>)`. -/
def importExpression (pos endPos : Int) (argument : JsVal) : JsVal :=
  .obj [("type", .str "ImportExpression"), ("start", .num pos), ("end", .num endPos),
        ("source", argument)]

/-- The node of `import(<argument>)` as built by parser versions that know the
attributes of an import: the absent second argument is recorded as
`options: null`. -/
def importExpressionNullOptions (pos endPos : Int) (argument : JsVal) : JsVal :=
  .obj [("type", .str "ImportExpression"), ("start", .num pos), ("end", .num endPos),
        ("source", argument), ("options", .null)]

/-- An `ExpressionStatement` node. -/
def expressionStatement (pos endPos : Int) (expression : JsVal) : JsVal :=
  .obj [("type", .str "ExpressionStatement"), ("start", .num pos), ("end", .num endPos),
        ("expression", expression)]

/-- The `Program` node of a module. -/
def program (endPos : Int) (body : List JsVal) : JsVal :=
  .obj [("type", .str "Program"), ("start", .num 0), ("end", .num endPos),
        ("body", .arr body), ("sourceType", .str "module")]

/-! ## The tasks enqueued by one iteration, and the potential of a worklist -/

/-- The state whose worklist holds only `file`, nothing being recorded yet. -/
def soleTask (file : Task) : State :=
  { filesToAnalyze := [file], globPatterns := [], additionalManifestEntries := [], clock := 0 }

/-- The tasks that one iteration of the drain loop appends to the worklist when
it analyses `file` (an error when the iteration throws), read off `drainStep`
run on the worklist holding only `file`. -/
def enqueued (w : World) (appName : String) (file : Task) : Except JsError (List Task) :=
  match drainStep w appName (soleTask file) with
  | .error e => .error e
  | .ok s => .ok s.filesToAnalyze

/-- Acyclicity check for one task of a finite set `tasks`: analysing it
enqueues at most `b` tasks, all of them in `tasks` and of smaller rank. -/
def rankOk (w : World) (appName : String) (rank : Task → Nat) (b : Nat) (tasks : List Task)
    (t : Task) : Bool :=
  match enqueued w appName t with
  | .error _ => true
  | .ok new => decide (new.length ≤ b) && new.all (fun c => tasks.contains c && decide (rank c < rank t))

/-- The potential of a worklist: the sum of `(b + 1) ^ rank t` over its tasks. -/
def potential (rank : Task → Nat) (b : Nat) (q : List Task) : Nat :=
  (q.map (fun t => (b + 1) ^ rank t)).sum

/-- The path of `f` relative to `dir` when `f` lies under `dir` (a model of
`path.relative` for the listed files). -/
def relativeUnder (dir f : String) : String :=
  if (dir.data ++ ['/']).isPrefixOf f.data then ⟨f.data.drop (dir.data.length + 1)⟩ else f

/-! ## Example asset trees -/

/-- Two files importing each other: `/d/a.js` holds `import "./b.js"` and
`/d/b.js` holds `import "./a.js"`. -/
def cyclicWorld : World :=
  { baseWorld with
    readFile := fun f =>
      if f = "/d/a.js" then some "import \"./b.js\""
      else if f = "/d/b.js" then some "import \"./a.js\""
      else none
    parse2022 := fun content =>
      if content = "import \"./b.js\"" then
        some (program 15 [importDeclaration 0 "./b.js" "\"./b.js\""])
      else if content = "import \"./a.js\"" then
        some (program 15 [importDeclaration 0 "./a.js" "\"./a.js\""])
      else none
    pathRelative := relativeUnder }

/-- An application without registered URLs and without plugins. -/
def plainContext : AppContext :=
  { urlsToCache := some [], pluginsData := [] }

/-- The file-backed task of a listed file. -/
def fileTask (baseUrl filePath : String) : Task :=
  { baseUrl := baseUrl, fileContent := none, filePath := some filePath }

/-- The locals of a build over the listing `/d/a.js`, `/d/b.js` once the
seeding is done (no entry added since), with the given worklist. -/
def seededState (q : List Task) : State :=
  { filesToAnalyze := q
    globPatterns := ["a.js", "b.js"]
    additionalManifestEntries :=
      [{ revision := 0, url := "index.html" },
       { revision := 0, url := "/_openbamz_admin.js?appName=app" }]
    clock := 2 }

/-- File `/d/a.js` imports `./b.js`, which imports the external URL
`https://cdn.example.com/c.js`, which answers 404. -/
def chainWorld : World :=
  { baseWorld with
    readFile := fun f =>
      if f = "/d/a.js" then some "import \"./b.js\""
      else if f = "/d/b.js" then some "import \"https://cdn.example.com/c.js\""
      else none
    parse2022 := fun content =>
      if content = "import \"./b.js\"" then
        some (program 15 [importDeclaration 0 "./b.js" "\"./b.js\""])
      else if content = "import \"https://cdn.example.com/c.js\"" then
        some (program 37 [importDeclaration 0 "https://cdn.example.com/c.js"
          "\"https://cdn.example.com/c.js\""])
      else none
    fetch := fun url =>
      if url = "https://cdn.example.com/c.js" then
        some { ok := false, contentType := some "text/html", text := "Not Found" }
      else none
    pathRelative := relativeUnder }

/-- The tasks of the two files of `cyclicWorld`. -/
def taskA : Task := fileTask "a.js" "/d/a.js"

/-- The task of `/d/b.js`. -/
def taskB : Task := fileTask "b.js" "/d/b.js"

/-- The four worklists the build of `cyclicWorld` runs through, again and
again. -/
def seededStates : List State :=
  [seededState [taskA, taskB], seededState [taskB, taskB], seededState [taskB, taskA],
   seededState [taskA, taskA]]

/-- The rank of the tasks of `chainWorld`: `a.js` lies above `b.js`. -/
def chainRank (t : Task) : Nat :=
  if t.baseUrl = "a.js" then 1 else 0

/-- The chain of `chainWorld` with the external URL unreachable: every fetch
rejects. -/
def unreachableWorld : World :=
  { chainWorld with fetch := fun _ => none }

/-- The chain of `chainWorld` with the external URL answering 200 without a
`content-type` header. -/
def untypedWorld : World :=
  { chainWorld with
    fetch := fun url =>
      if url = "https://cdn.example.com/c.js" then
        some { ok := true, contentType := none, text := "" }
      else none }

/-- The response does not lead to an expansion and the test of it does not
throw: its status is not 2xx, or its content type is present and does not
contain `javascript`. -/
def notExpandable (r : Response) : Bool :=
  !r.ok || (match r.contentType with
            | some ct => !includes ct "javascript"
            | none => false)

/-- The state handed to the injector at the end of the build of `chainWorld`. -/
def chainFinal : State :=
  { filesToAnalyze := []
    globPatterns := ["a.js", "b.js"]
    additionalManifestEntries :=
      [{ revision := 0, url := "index.html" },
       { revision := 0, url := "/_openbamz_admin.js?appName=app" },
       { revision := 0, url := "https://cdn.example.com/c.js" }]
    clock := 3 }

/-! ## More syntax trees -/

/-- A `Literal` node with a numeric value. -/
def numericLiteral (pos : Int) (value : Int) (raw : String) : JsVal :=
  .obj [("type", .str "Literal"), ("start", .num pos), ("end", .num (pos + raw.length)),
        ("value", .num value), ("raw", .str raw)]

/-- A `Literal` node with a boolean value. -/
def booleanLiteral (pos : Int) (value : Bool) (raw : String) : JsVal :=
  .obj [("type", .str "Literal"), ("start", .num pos), ("end", .num (pos + raw.length)),
        ("value", .bool value), ("raw", .str raw)]

/-- A `Literal` node of a regular expression: its value is a `RegExp` object,
which has no enumerable property. -/
def regexLiteral (pos : Int) (pattern flags raw : String) : JsVal :=
  .obj [("type", .str "Literal"), ("start", .num pos), ("end", .num (pos + raw.length)),
        ("value", .obj []), ("raw", .str raw),
        ("regex", .obj [("pattern", .str pattern), ("flags", .str flags)])]

/-- An `Identifier` node. -/
def identifier (pos : Int) (name : String) : JsVal :=
  .obj [("type", .str "Identifier"), ("start", .num pos), ("end", .num (pos + name.length)),
        ("name", .str name)]

/-- A `TemplateLiteral` node without substitutions. -/
def templateLiteral (pos : Int) (text : String) : JsVal :=
  .obj [("type", .str "TemplateLiteral"), ("start", .num pos),
        ("end", .num (pos + text.length + 2)), ("expressions", .arr []),
        ("quasis", .arr [.obj [("type", .str "TemplateElement"), ("start", .num (pos + 1)),
          ("end", .num (pos + 1 + text.length)),
          ("value", .obj [("raw", .str text), ("cooked", .str text)]),
          ("tail", .bool true)]])]

/-- A `BlockStatement` node. -/
def blockStatement (pos endPos : Int) (body : List JsVal) : JsVal :=
  .obj [("type", .str "BlockStatement"), ("start", .num pos), ("end", .num endPos),
        ("body", .arr body)]

/-- The strings of an extraction result (`none` when the extraction threw, a
value that is not a string is left out). -/
def specifierStrings : Except JsError (List JsVal) → Option (List String)
  | .ok urls => some (urls.filterMap (fun v => match v with
      | .str s => some s
      | _ => none))
  | .error _ => none

/-- The strings passed on by `extractUrlsFromJsContent`. -/
def stringsOf (urls : List JsVal) : List String :=
  urls.filterMap (fun v => match v with
    | .str s => some s
    | _ => none)

/-- The node `n` occurs in the tree `t` under a chain of object and array
children, each of them an object or an array. -/
inductive Occurs (n : JsVal) : JsVal → Prop where
  | here : n.isObjectLike = true → Occurs n n
  | prop (k : String) (v : JsVal) (props : List (String × JsVal)) :
      (k, v) ∈ props → Occurs n v → Occurs n (.obj props)
  | item (v : JsVal) (items : List JsVal) :
      v ∈ items → Occurs n v → Occurs n (.arr items)

/-- The tree of `{ import "mod" }` followed by `import(true)`. -/
def nestedImportThenBooleanImport : JsVal :=
  program 30
    [blockStatement 0 16 [importDeclaration 2 "mod" "\"mod\""],
     expressionStatement 17 29 (importExpression 17 29 (booleanLiteral 24 true "true"))]

/-- The tree of `import(5)` followed by `import "./x.js"`. -/
def numericImportThenStaticImport : JsVal :=
  program 26
    [expressionStatement 0 9 (importExpression 0 9 (numericLiteral 7 5 "5")),
     importDeclaration 10 "./x.js" "\"./x.js\""]

/-- The tree of `import(name)`, then an import of a template literal, then
`import "./x.js"`. -/
def unresolvableImportsThenStaticImport : JsVal :=
  program 50
    [expressionStatement 0 12 (importExpression 0 12 (identifier 7 "name")),
     expressionStatement 13 30 (importExpression 13 30 (templateLiteral 20 "./t.js")),
     importDeclaration 31 "./x.js" "\"./x.js\""]

/-- A world whose parser knows the source texts of the three trees above. -/
def parserWorld : World :=
  { baseWorld with
    parseLatest := fun content =>
      if content = "\x7b import \"mod\" \x7d import(true)" then some nestedImportThenBooleanImport
      else if content = "import(5); import \"./x.js\"" then some numericImportThenStaticImport
      else if content = "import(name); import(tpl); import \"./x.js\"" then
        some unresolvableImportsThenStaticImport
      else none }

/-! ## The HTML extractor as the specification words it -/

/-- The URL the specification lists for one element: the `src` of a script
element, the `href` of a link element, when it begins with `https://` and the
`rel` of the element is not `preconnect`. -/
def listedUrl (e : Element) : Option String :=
  if e.rel = some "preconnect" then none
  else if e.tag = "script" then e.src.filter (fun u => startsWith u "https://")
  else if e.tag = "link" then e.href.filter (fun u => startsWith u "https://")
  else none

/-- The element is one on which `src || href` reads the other attribute with a
different outcome: a link element with an `href` whose `src` is non-empty and
differs from the `href`, one of the two beginning with `https://`, or a script
element with an empty `src` and an `href` beginning with `https://`; in both
cases the `rel` is not `preconnect`. -/
def readsOtherAttribute (e : Element) : Bool :=
  e.rel != some "preconnect" &&
    match e.src, e.href with
    | some s, some h =>
      (e.tag == "link" && s != "" && s != h &&
          (startsWith s "https://" || startsWith h "https://")) ||
        (e.tag == "script" && s == "" && startsWith h "https://")
    | _, _ => false

/-- The document `<link rel="preconnect" href="https://fonts.example.com">
<script src="https://cdn.example.com/a.js">`. -/
def preconnectThenScript : List Element :=
  [{ tag := "link", src := none, href := some "https://fonts.example.com",
     rel := some "preconnect" },
   { tag := "script", src := some "https://cdn.example.com/a.js", href := none, rel := none }]

/-- The document `<link rel="stylesheet" src="https://b.example.com/y.js"
href="https://a.example.com/x.css">`. -/
def linkWithSrc : List Element :=
  [{ tag := "link", src := some "https://b.example.com/y.js",
     href := some "https://a.example.com/x.css", rel := some "stylesheet" }]

/-- The document `<link rel="stylesheet" src="/local.css"
href="https://a.example.com/x.css">`. -/
def linkWithLocalSrc : List Element :=
  [{ tag := "link", src := some "/local.css", href := some "https://a.example.com/x.css",
     rel := some "stylesheet" }]

/-- The document `<script src="" href="https://cdn.example.com/a.js">`. -/
def scriptWithEmptySrc : List Element :=
  [{ tag := "script", src := some "", href := some "https://cdn.example.com/a.js",
     rel := none }]

/-- A document whose elements carry both attributes without the code reading
the other one: a script with `src` and `href`, a script with `href` only, a
link with an empty `src`, a link whose `src` equals its `href`, and a
preconnect link with a `src`. -/
def bothAttributes : List Element :=
  [{ tag := "script", src := some "https://cdn.example.com/a.js",
     href := some "https://cdn.example.com/other.js", rel := none },
   { tag := "script", src := none, href := some "https://cdn.example.com/b.js", rel := none },
   { tag := "link", src := some "", href := some "https://a.example.com/x.css",
     rel := some "stylesheet" },
   { tag := "link", src := some "https://a.example.com/y.css",
     href := some "https://a.example.com/y.css", rel := some "stylesheet" },
   { tag := "link", src := some "https://b.example.com/z.js",
     href := some "https://fonts.example.com", rel := some "preconnect" }]

/-- A listing of four files under `/d`. -/
def sampleListing : List String :=
  ["/d/index.html", "/d/sw.js", "/d/app.js", "/d/css/style.css"]

/-! ## The traversal as the specification words it -/

/-- The specifiers a node contributes by itself (none when reading them
throws). -/
def ownSpecifiers (n : JsVal) : List JsVal :=
  match ownImports n with
  | .ok own => own
  | .error _ => []

mutual
/-- Pre-order collection of the specifiers of a tree: those of the node, then
those of its object and array children in key order, duplicates kept. -/
def preorder : JsVal → List JsVal
  | .obj props => ownSpecifiers (.obj props) ++ preorderProps props
  | .arr items => preorderItems items
  | v => ownSpecifiers v
/-- Pre-order collection over the properties of an object. -/
def preorderProps : List (String × JsVal) → List JsVal
  | [] => []
  | (_, v) :: rest => (if v.isObjectLike then preorder v else []) ++ preorderProps rest
/-- Pre-order collection over the items of an array. -/
def preorderItems : List JsVal → List JsVal
  | [] => []
  | v :: rest => (if v.isObjectLike then preorder v else []) ++ preorderItems rest
end

/-! ## Example builds for the dispatch of tasks and for the two lists handed over -/

/-- The chain of `chainWorld` with the external URL answering 200, content type
`application/javascript`, and an empty body. -/
def emptyBodyWorld : World :=
  { chainWorld with
    fetch := fun url =>
      if url = "https://cdn.example.com/c.js" then
        some { ok := true, contentType := some "application/javascript", text := "" }
      else none }

/-- The content-bearing task pushed for a fetched URL with the given body
(lines 329-332). -/
def contentTask (baseUrl text : String) : Task :=
  { baseUrl := baseUrl, fileContent := some text, filePath := none }

/-- An application for which another plugin registered the URL `app.js`. -/
def registeredContext : AppContext :=
  { urlsToCache := some ["app.js"], pluginsData := [] }

/-- A world serving the registered URL as a style sheet; no file can be read. -/
def registeredWorld : World :=
  { baseWorld with
    fetch := fun url =>
      if url = "http://localhost:3000/app.js?appName=app" then
        some { ok := true, contentType := some "text/css", text := "" }
      else none
    pathRelative := relativeUnder }

/-- The strings that are both a glob pattern and the `url` of an entry. -/
def handedTwice (s : State) : List String :=
  s.globPatterns.filter (fun g => (entryUrls s).contains g)

/-- The canonical forms of the registered URLs of an application. -/
def registeredUrls (ctx : AppContext) (appName : String) : List String :=
  (ctx.urlsToCache.getD []).map (canonicalUrl appName)

/-- The state handed to the injector at the end of the build of
`registeredWorld` over the listing `/d/app.js`. -/
def registeredFinal : State :=
  { filesToAnalyze := []
    globPatterns := ["app.js"]
    additionalManifestEntries :=
      [{ revision := 0, url := "index.html" },
       { revision := 0, url := "/_openbamz_admin.js?appName=app" },
       { revision := 0, url := "app.js" }]
    clock := 3 }

/-! ## Manifest entry store: uniqueness of the recorded URLs -/

theorem any_url_iff (l : List ManifestEntry) (u : String) :
    (l.any (fun e => e.url == u)) = true ↔ u ∈ l.map (fun e => e.url) := by
  simp only [List.any_eq_true, beq_iff_eq, List.mem_map]

theorem addToManifestEntries_of_mem (w : World) (appName : String) (s : State) (u : String)
    (h : canonicalUrl appName u ∈ entryUrls s) : addToManifestEntries w appName s u = s := by
  unfold addToManifestEntries
  have h2 : (s.additionalManifestEntries.any (fun e => e.url == canonicalUrl appName u)) = true :=
    (any_url_iff _ _).2 h
  simp [h2]

theorem addToManifestEntries_nodup (w : World) (appName : String) (s : State) (u : String)
    (h : (entryUrls s).Nodup) : (entryUrls (addToManifestEntries w appName s u)).Nodup := by
  unfold addToManifestEntries
  by_cases hc : (!s.globPatterns.contains (canonicalUrl appName u) &&
      !s.additionalManifestEntries.any (fun e => e.url == canonicalUrl appName u)) = true
  · simp only [hc, if_true]
    have hn : canonicalUrl appName u ∉ entryUrls s := by
      intro hm
      have := (any_url_iff _ _).2 hm
      simp [this] at hc
    unfold entryUrls at *
    simp only [List.map_append, List.map_cons, List.map_nil]
    exact List.Nodup.append h (List.nodup_singleton _) (by simpa using hn)
  · simp only [hc]
    exact h

theorem addToManifestEntries_globPatterns (w : World) (appName : String) (s : State)
    (u : String) : (addToManifestEntries w appName s u).globPatterns = s.globPatterns := by
  unfold addToManifestEntries
  dsimp only
  split <;> rfl

theorem addToManifestEntries_filesToAnalyze (w : World) (appName : String) (s : State)
    (u : String) : (addToManifestEntries w appName s u).filesToAnalyze = s.filesToAnalyze := by
  unfold addToManifestEntries
  dsimp only
  split <;> rfl

theorem seed_urls_ne (appName : String) :
    "index.html" ≠ "/_openbamz_admin.js?appName=" ++ appName := by
  intro h
  have h2 := congrArg String.data h
  simp [String.data_append] at h2

theorem initialState_nodup (w : World) (appName : String) :
    (entryUrls (initialState w appName)).Nodup := by
  simp [entryUrls, initialState]
  exact seed_urls_ne appName

theorem addAll_nodup (w : World) (appName : String) (calls : List (List String × String)) :
    ∀ s : State, (entryUrls s).Nodup → (entryUrls (addAll w appName s calls)).Nodup := by
  induction calls with
  | nil => intro s h; exact h
  | cons c rest ih =>
    intro s h
    unfold addAll
    rw [List.foldl_cons]
    exact ih _ (addToManifestEntries_nodup w appName _ c.2 h)

/-! ### The uniqueness invariant along a whole build -/

theorem forEachE_inv {σ α : Type} (P : σ → Prop) (body : σ → α → Except JsError σ)
    (hbody : ∀ s a s1, P s → body s a = .ok s1 → P s1) :
    ∀ (l : List α) (s s1 : σ), P s → forEachE body s l = .ok s1 → P s1 := by
  intro l
  induction l with
  | nil =>
    intro s s1 hs h
    simp only [forEachE] at h
    cases h
    exact hs
  | cons a rest ih =>
    intro s s1 hs h
    simp only [forEachE] at h
    cases hb : body s a with
    | error e => rw [hb] at h; cases h
    | ok s2 =>
      rw [hb] at h
      exact ih s2 s1 (hbody s a s2 hs hb) h

theorem pushIfJavascript_entries (s s1 : State) (b : String) (r : Response)
    (h : pushIfJavascript s b r = .ok s1) :
    s1.additionalManifestEntries = s.additionalManifestEntries ∧
      s1.globPatterns = s.globPatterns ∧ s1.clock = s.clock := by
  unfold pushIfJavascript at h
  split at h
  · cases h
  · cases h; exact ⟨rfl, rfl, rfl⟩
  · cases h; exact ⟨rfl, rfl, rfl⟩

theorem resolveUrl_entries (w : World) (appName : String) (file : Task) (s s1 : State)
    (url fullUrl : String) (h : resolveUrl w appName file s url = .ok (s1, fullUrl)) :
    s1.additionalManifestEntries = s.additionalManifestEntries ∧
      s1.globPatterns = s.globPatterns ∧ s1.clock = s.clock := by
  unfold resolveUrl at h
  split at h
  · split at h
    · cases h
    · rename_i r _
      cases hp : pushIfJavascript s url r with
      | error e => rw [hp] at h; cases h
      | ok s2 =>
        rw [hp] at h
        cases h
        exact pushIfJavascript_entries _ _ _ _ hp
  · split at h
    · dsimp only at h
      split at h
      · cases h
      · rename_i r _
        cases hp : pushIfJavascript s (resolveFromContent w appName file.baseUrl url) r with
        | error e => rw [hp] at h; cases h
        | ok s2 =>
          rw [hp] at h
          cases h
          exact pushIfJavascript_entries _ _ _ _ hp
    · cases h
      exact ⟨rfl, rfl, rfl⟩

theorem processUrl_nodup (w : World) (appName : String) (file : Task) (s : State) (u : JsVal)
    (s1 : State) (hs : (entryUrls s).Nodup) (h : processUrl w appName file s u = .ok s1) :
    (entryUrls s1).Nodup := by
  unfold processUrl at h
  split at h
  · rename_i url
    cases hr : resolveUrl w appName file s url with
    | error e => rw [hr] at h; cases h
    | ok p =>
      obtain ⟨s2, fullUrl⟩ := p
      rw [hr] at h
      cases h
      apply addToManifestEntries_nodup
      have := (resolveUrl_entries w appName file s s2 url fullUrl hr).1
      unfold entryUrls at *
      rw [this]
      exact hs
  · cases h

theorem drainStep_nodup (w : World) (appName : String) (s s1 : State)
    (hs : (entryUrls s).Nodup) (h : drainStep w appName s = .ok s1) : (entryUrls s1).Nodup := by
  unfold drainStep at h
  split at h
  · cases h; exact hs
  · rename_i file rest _
    split at h
    · cases h
    · rename_i urls _
      exact forEachE_inv (fun t => (entryUrls t).Nodup) (processUrl w appName file)
        (fun a b c ha hb => processUrl_nodup w appName file a b c ha hb) urls
        { s with filesToAnalyze := rest } s1 hs h

theorem drain_nodup (w : World) (appName : String) :
    ∀ (fuel : Nat) (s s1 : State), (entryUrls s).Nodup →
      drain w appName fuel s = .done s1 → (entryUrls s1).Nodup := by
  intro fuel
  induction fuel with
  | zero =>
    intro s s1 hs h
    unfold drain at h
    split at h
    · cases h; exact hs
    · cases h
  | succ n ih =>
    intro s s1 hs h
    unfold drain at h
    split at h
    · cases h; exact hs
    · split at h
      · cases h
      · rename_i s2 hd
        exact ih s2 s1 (drainStep_nodup w appName s s2 hs hd) h

theorem seedUrlToCache_nodup (w : World) (appName : String) (s : State) (u : String)
    (s1 : State) (hs : (entryUrls s).Nodup) (h : seedUrlToCache w appName s u = .ok s1) :
    (entryUrls s1).Nodup := by
  unfold seedUrlToCache at h
  dsimp only at h
  split at h
  · cases h
  · have := (pushIfJavascript_entries _ _ _ _ h).1
    unfold entryUrls at *
    rw [this]
    exact addToManifestEntries_nodup w appName s u hs

theorem seedFile_entries (w : World) (dir : String) (s : State) (f : String) :
    (seedFile w dir s f).additionalManifestEntries = s.additionalManifestEntries := by
  unfold seedFile
  dsimp only
  split
  · rfl
  · split <;> split <;> rfl

theorem seedFiles_entries (w : World) (dir : String) (files : List String) :
    ∀ s : State, (seedFiles w dir s files).additionalManifestEntries =
      s.additionalManifestEntries := by
  induction files with
  | nil => intro s; rfl
  | cons f rest ih =>
    intro s
    unfold seedFiles at *
    rw [List.foldl_cons, ih, seedFile_entries]

theorem seedPlugin_nodup (w : World) (appName : String) (s : State) (p : String × PluginData)
    (hs : (entryUrls s).Nodup) : (entryUrls (seedPlugin w appName s p)).Nodup := by
  unfold seedPlugin
  split
  · split
    · exact addToManifestEntries_nodup w appName s _ hs
    · exact hs
  · exact hs

theorem seedPlugins_nodup (w : World) (appName : String) (ps : List (String × PluginData)) :
    ∀ s : State, (entryUrls s).Nodup →
      (entryUrls (ps.foldl (seedPlugin w appName) s)).Nodup := by
  induction ps with
  | nil => intro s hs; exact hs
  | cons p rest ih =>
    intro s hs
    rw [List.foldl_cons]
    exact ih _ (seedPlugin_nodup w appName s p hs)

theorem seed_nodup (w : World) (ctx : AppContext) (appName dir : String) (files : List String)
    (s : State) (h : seed w ctx appName dir files = .ok s) : (entryUrls s).Nodup := by
  unfold seed at h
  split at h
  · cases h
  · rename_i s0 h0
    cases h
    apply seedPlugins_nodup
    have h1 : (entryUrls s0).Nodup :=
      forEachE_inv (fun t => (entryUrls t).Nodup) (seedUrlToCache w appName)
        (fun a b c ha hb => seedUrlToCache_nodup w appName a b c ha hb) _ _ s0
        (initialState_nodup w appName) h0
    unfold entryUrls at *
    rw [seedFiles_entries]
    exact h1

theorem buildServiceWorker_nodup (w : World) (ctx : AppContext) (appName dir : String)
    (files : List String) (fuel : Nat) (s : State)
    (h : buildServiceWorker w ctx appName dir files fuel = .done s) : (entryUrls s).Nodup := by
  unfold buildServiceWorker at h
  split at h
  · cases h
  · rename_i s0 h0
    exact drain_nodup w appName fuel s0 s (seed_nodup w ctx appName dir files s0 h0) h

/-- C1: for every application name and every sequence of URLs passed to
`addToManifestEntries` after seeding (whatever the glob patterns at each call),
the `url` fields of `additionalManifestEntries` are pairwise distinct: the two
seed entries differ, a URL whose canonical form is already the `url` of an
entry leaves the store unchanged, and the entries handed over at the end of a
build are pairwise distinct. -/
theorem manifest_urls_pairwise_distinct (w : World) (appName : String) :
    "index.html" ≠ "/_openbamz_admin.js?appName=" ++ appName ∧
    (∀ calls : List (List String × String),
      (entryUrls (addAll w appName (initialState w appName) calls)).Nodup) ∧
    (∀ (s : State) (u : String), canonicalUrl appName u ∈ entryUrls s →
      addToManifestEntries w appName s u = s) ∧
    (∀ (ctx : AppContext) (dir : String) (files : List String) (fuel : Nat) (s : State),
      buildServiceWorker w ctx appName dir files fuel = .done s → (entryUrls s).Nodup) :=
  ⟨seed_urls_ne appName,
   fun calls => addAll_nodup w appName calls _ (initialState_nodup w appName),
   fun s u h => addToManifestEntries_of_mem w appName s u h,
   fun ctx dir files fuel s h => buildServiceWorker_nodup w ctx appName dir files fuel s h⟩

/-- C1 at a concrete input: the same resource passed three times under
different spellings is recorded once. -/
theorem manifest_urls_pairwise_distinct_witness :
    entryUrls (addAll baseWorld "app" (initialState baseWorld "app")
        [([], "http://localhost:3000/a.js?appName=app"), ([], "/a.js"), ([], "/a.js?appName=app")])
      = ["index.html", "/_openbamz_admin.js?appName=app", "/a.js"] ∧
    (entryUrls (addAll baseWorld "app" (initialState baseWorld "app")
        [([], "http://localhost:3000/a.js?appName=app"), ([], "/a.js"),
         ([], "/a.js?appName=app")])).Nodup :=
  ⟨by decide, (manifest_urls_pairwise_distinct baseWorld "app").2.1 _⟩


/-! ## Drain loop: the worklist effect of one iteration -/

theorem pushIfJavascript_shape (b : String) (r : Response) :
    (∃ e, ∀ s : State, pushIfJavascript s b r = .error e) ∨
    (∃ new : List Task, ∀ s : State, ∃ s1, pushIfJavascript s b r = .ok s1 ∧
      s1.filesToAnalyze = s.filesToAnalyze ++ new) := by
  unfold pushIfJavascript
  cases h : okAndJavascript r with
  | error e => exact Or.inl ⟨e, fun s => rfl⟩
  | ok v =>
    cases v with
    | true => exact Or.inr ⟨_, fun s => ⟨_, rfl, rfl⟩⟩
    | false => exact Or.inr ⟨[], fun s => ⟨_, rfl, by simp⟩⟩

theorem processUrl_shape (w : World) (appName : String) (file : Task) (u : JsVal) :
    (∃ e, ∀ s : State, processUrl w appName file s u = .error e) ∨
    (∃ new : List Task, ∀ s : State, ∃ s1, processUrl w appName file s u = .ok s1 ∧
      s1.filesToAnalyze = s.filesToAnalyze ++ new) := by
  cases u with
  | str url =>
    simp only [processUrl, resolveUrl]
    by_cases h1 : startsWith url "http" = true
    · simp only [h1, if_true]
      cases hf : w.fetch url with
      | none => exact Or.inl ⟨_, fun s => rfl⟩
      | some r =>
        rcases pushIfJavascript_shape url r with ⟨e, he⟩ | ⟨new, hnew⟩
        · exact Or.inl ⟨e, fun s => by simp only [he s]⟩
        · refine Or.inr ⟨new, fun s => ?_⟩
          obtain ⟨s1, hs1, hq⟩ := hnew s
          simp only [hs1]
          exact ⟨_, rfl, by rw [addToManifestEntries_filesToAnalyze, hq]⟩
    · simp only [h1, Bool.false_eq_true, if_false]
      by_cases h2 : (!truthyField file.filePath) = true
      · simp only [h2, if_true]
        cases hf : w.fetch (resolveFromContent w appName file.baseUrl url) with
        | none => exact Or.inl ⟨_, fun s => rfl⟩
        | some r =>
          rcases pushIfJavascript_shape (resolveFromContent w appName file.baseUrl url) r with
            ⟨e, he⟩ | ⟨new, hnew⟩
          · exact Or.inl ⟨e, fun s => by simp only [he s]⟩
          · refine Or.inr ⟨new, fun s => ?_⟩
            obtain ⟨s1, hs1, hq⟩ := hnew s
            simp only [hs1]
            exact ⟨_, rfl, by rw [addToManifestEntries_filesToAnalyze, hq]⟩
      · simp only [h2, Bool.false_eq_true, if_false]
        refine Or.inr ⟨[{ baseUrl := w.pathJoin (w.pathDirname file.baseUrl) url,
                          fileContent := none,
                          filePath := some (w.pathJoin (w.pathDirname (file.filePath.getD "")) url) }],
          fun s => ⟨_, rfl, ?_⟩⟩
        rw [addToManifestEntries_filesToAnalyze]
  | undefined => exact Or.inl ⟨_, fun s => rfl⟩
  | null => exact Or.inl ⟨_, fun s => rfl⟩
  | bool b => exact Or.inl ⟨_, fun s => rfl⟩
  | num n => exact Or.inl ⟨_, fun s => rfl⟩
  | obj props => exact Or.inl ⟨_, fun s => rfl⟩
  | arr items => exact Or.inl ⟨_, fun s => rfl⟩

theorem forEach_processUrl_shape (w : World) (appName : String) (file : Task)
    (urls : List JsVal) :
    (∃ e, ∀ s : State, forEachE (processUrl w appName file) s urls = .error e) ∨
    (∃ new : List Task, ∀ s : State, ∃ s1,
      forEachE (processUrl w appName file) s urls = .ok s1 ∧
      s1.filesToAnalyze = s.filesToAnalyze ++ new) := by
  induction urls with
  | nil => exact Or.inr ⟨[], fun s => ⟨s, rfl, by simp⟩⟩
  | cons u rest ih =>
    rcases processUrl_shape w appName file u with ⟨e, he⟩ | ⟨new1, h1⟩
    · exact Or.inl ⟨e, fun s => by simp only [forEachE, he s]⟩
    · rcases ih with ⟨e, he⟩ | ⟨new2, h2⟩
      · refine Or.inl ⟨e, fun s => ?_⟩
        obtain ⟨s1, hs1, _⟩ := h1 s
        simp only [forEachE, hs1, he s1]
      · refine Or.inr ⟨new1 ++ new2, fun s => ?_⟩
        obtain ⟨s1, hs1, hq1⟩ := h1 s
        obtain ⟨s2, hs2, hq2⟩ := h2 s1
        refine ⟨s2, by simp only [forEachE, hs1, hs2], ?_⟩
        rw [hq2, hq1, List.append_assoc]

theorem drainStep_of_enqueued (w : World) (appName : String) (file : Task) (rest : List Task)
    (s : State) (hs : s.filesToAnalyze = file :: rest) :
    (∀ e, enqueued w appName file = .error e → drainStep w appName s = .error e) ∧
    (∀ new, enqueued w appName file = .ok new →
      ∃ s1, drainStep w appName s = .ok s1 ∧ s1.filesToAnalyze = rest ++ new) := by
  unfold enqueued drainStep
  simp only [hs, soleTask]
  cases ht : taskUrls w file with
  | error e =>
    simp only
    exact ⟨fun e1 h => by cases h; rfl, fun new h => by cases h⟩
  | ok urls =>
    simp only
    rcases forEach_processUrl_shape w appName file urls with ⟨e, he⟩ | ⟨new, hnew⟩
    · simp only [he]
      exact ⟨fun e1 h => by cases h; rfl, fun new h => by cases h⟩
    · obtain ⟨t1, ht1, hq1⟩ := hnew (State.mk [] [] [] 0)
      obtain ⟨s1, hs1, hq⟩ := hnew (State.mk rest s.globPatterns s.additionalManifestEntries s.clock)
      rw [ht1, hs1]
      constructor
      · intro e1 h
        cases h
      · intro new1 h
        cases h
        refine ⟨s1, rfl, ?_⟩
        rw [hq, hq1]
        simp

/-! ## Drain loop: termination on an acyclic reference graph -/

theorem potential_append (rank : Task → Nat) (b : Nat) (q1 q2 : List Task) :
    potential rank b (q1 ++ q2) = potential rank b q1 + potential rank b q2 := by
  simp [potential]

theorem potential_cons (rank : Task → Nat) (b : Nat) (t : Task) (q : List Task) :
    potential rank b (t :: q) = (b + 1) ^ rank t + potential rank b q := by
  simp [potential]

theorem potential_children_lt (rank : Task → Nat) (b r : Nat) (new : List Task)
    (hlen : new.length ≤ b) (hrank : ∀ c ∈ new, rank c < r) :
    potential rank b new < (b + 1) ^ r := by
  cases r with
  | zero =>
    cases new with
    | nil => simp [potential]
    | cons c rest => exact absurd (hrank c (List.mem_cons_self _ _)) (Nat.not_lt_zero _)
  | succ k =>
    have hb : ∀ x ∈ new.map (fun t => (b + 1) ^ rank t), x ≤ (b + 1) ^ k := by
      intro x hx
      obtain ⟨c, hc, rfl⟩ := List.mem_map.1 hx
      exact Nat.pow_le_pow_right (Nat.succ_pos b) (Nat.lt_succ_iff.1 (hrank c hc))
    have h1 := List.sum_le_card_nsmul _ _ hb
    simp only [List.length_map, smul_eq_mul] at h1
    have hpos : 0 < (b + 1) ^ k := Nat.pos_pow_of_pos _ (Nat.succ_pos b)
    calc potential rank b new ≤ new.length * (b + 1) ^ k := h1
      _ ≤ b * (b + 1) ^ k := Nat.mul_le_mul_right _ hlen
      _ < (b + 1) * (b + 1) ^ k := Nat.mul_lt_mul_of_pos_right (Nat.lt_succ_self b) hpos
      _ = (b + 1) ^ (k + 1) := by rw [pow_succ, mul_comm]

theorem potential_pos_of_ne_nil (rank : Task → Nat) (b : Nat) (q : List Task) (h : q ≠ []) :
    0 < potential rank b q := by
  cases q with
  | nil => exact absurd rfl h
  | cons t rest =>
    rw [potential_cons]
    exact Nat.lt_of_lt_of_le (Nat.pos_pow_of_pos _ (Nat.succ_pos b)) (Nat.le_add_right _ _)

theorem drain_stops (w : World) (appName : String) (rank : Task → Nat) (b : Nat)
    (tasks : List Task) (hok : ∀ t ∈ tasks, rankOk w appName rank b tasks t = true) :
    ∀ (fuel : Nat) (s : State), (∀ t ∈ s.filesToAnalyze, t ∈ tasks) →
      potential rank b s.filesToAnalyze ≤ fuel →
      (∃ s1, drain w appName fuel s = .done s1 ∧ s1.filesToAnalyze = []) ∨
      (∃ e, drain w appName fuel s = .threw e) := by
  intro fuel
  induction fuel with
  | zero =>
    intro s _ hpot
    have hq : s.filesToAnalyze = [] := by
      by_contra hne
      exact absurd (potential_pos_of_ne_nil rank b _ hne) (by omega)
    exact Or.inl ⟨s, by simp [drain, hq], hq⟩
  | succ n ih =>
    intro s hmem hpot
    cases hq : s.filesToAnalyze with
    | nil => exact Or.inl ⟨s, by simp [drain, hq], hq⟩
    | cons file rest =>
      have hshape := drainStep_of_enqueued w appName file rest s hq
      have hfile : file ∈ tasks := hmem file (by rw [hq]; exact List.mem_cons_self _ _)
      have hr := hok file hfile
      unfold rankOk at hr
      cases he : enqueued w appName file with
      | error e =>
        refine Or.inr ⟨e, ?_⟩
        simp [drain, hq, hshape.1 e he]
      | ok new =>
        obtain ⟨s1, hs1, hq1⟩ := hshape.2 new he
        rw [he] at hr
        simp only [Bool.and_eq_true, decide_eq_true_eq, List.all_eq_true,
          List.contains_iff_exists_mem_beq, beq_iff_eq] at hr
        obtain ⟨hlen, hall⟩ := hr
        have hlt : potential rank b new < (b + 1) ^ rank file :=
          potential_children_lt rank b (rank file) new hlen (fun c hc => (hall c hc).2)
        have hmem1 : ∀ t ∈ s1.filesToAnalyze, t ∈ tasks := by
          intro t ht
          rw [hq1] at ht
          rcases List.mem_append.1 ht with h | h
          · exact hmem t (by rw [hq]; exact List.mem_cons_of_mem _ h)
          · obtain ⟨c, hc, hcc⟩ := (hall t h).1
            rw [hcc]
            exact hc
        have hpot1 : potential rank b s1.filesToAnalyze ≤ n := by
          rw [hq1, potential_append]
          rw [hq, potential_cons] at hpot
          omega
        have hd : drain w appName (n + 1) s = drain w appName n s1 := by
          simp [drain, hq, hs1]
        rw [hd]
        exact ih s1 hmem1 hpot1

/-! ## Drain loop: a cyclic reference graph is crawled for ever -/

theorem drain_outOfFuel_of_closed (w : World) (appName : String) (C : List State)
    (hne : ∀ s ∈ C, s.filesToAnalyze.isEmpty = false)
    (hstep : ∀ s ∈ C, ∃ s1 ∈ C, drainStep w appName s = .ok s1) :
    ∀ (fuel : Nat) (s : State), s ∈ C → ∃ s1, drain w appName fuel s = .outOfFuel s1 := by
  intro fuel
  induction fuel with
  | zero =>
    intro s hs
    exact ⟨s, by simp [drain, hne s hs]⟩
  | succ n ih =>
    intro s hs
    obtain ⟨s1, hs1, hd⟩ := hstep s hs
    obtain ⟨s2, h2⟩ := ih s1 hs1
    exact ⟨s2, by simp [drain, hne s hs, hd, h2]⟩

theorem seededStates_step :
    ∀ s ∈ seededStates, ∃ s1 ∈ seededStates, drainStep cyclicWorld "app" s = .ok s1 := by
  intro s hs
  simp only [seededStates, List.mem_cons, List.mem_singleton, List.not_mem_nil, or_false] at hs
  rcases hs with rfl | rfl | rfl | rfl
  · exact ⟨seededState [taskB, taskB], by simp [seededStates], by rfl⟩
  · exact ⟨seededState [taskB, taskA], by simp [seededStates], by rfl⟩
  · exact ⟨seededState [taskA, taskA], by simp [seededStates], by rfl⟩
  · exact ⟨seededState [taskA, taskB], by simp [seededStates], by rfl⟩

/-- C2 fails on two files importing each other: after seeding, `b.js` is
already recorded (it is a glob pattern), yet analysing `a.js` enqueues it
again, four iterations lead back to the state after seeding, and no number of
iterations reaches an empty worklist. -/
theorem drain_cyclic_never_empty :
    seed cyclicWorld plainContext "app" "/d" ["/d/a.js", "/d/b.js"]
      = .ok (seededState [taskA, taskB]) ∧
    "b.js" ∈ (seededState [taskA, taskB]).globPatterns ∧
    drainStep cyclicWorld "app" (seededState [taskA, taskB])
      = .ok (seededState [taskB, taskB]) ∧
    drainStep cyclicWorld "app" (seededState [taskB, taskB])
      = .ok (seededState [taskB, taskA]) ∧
    drainStep cyclicWorld "app" (seededState [taskB, taskA])
      = .ok (seededState [taskA, taskA]) ∧
    drainStep cyclicWorld "app" (seededState [taskA, taskA])
      = .ok (seededState [taskA, taskB]) ∧
    ¬ ∃ (fuel : Nat) (s : State),
        buildServiceWorker cyclicWorld plainContext "app" "/d" ["/d/a.js", "/d/b.js"] fuel
          = .done s := by
  have hseed : seed cyclicWorld plainContext "app" "/d" ["/d/a.js", "/d/b.js"]
      = .ok (seededState [taskA, taskB]) := by rfl
  refine ⟨hseed, by decide, by rfl, by rfl, by rfl, by rfl, ?_⟩
  rintro ⟨fuel, s, h⟩
  unfold buildServiceWorker at h
  rw [hseed] at h
  obtain ⟨s1, h1⟩ := drain_outOfFuel_of_closed cyclicWorld "app" seededStates
    (by decide) seededStates_step fuel (seededState [taskA, taskB]) (by simp [seededStates])
  simp only [h1] at h
  cases h

/-- C2, amended: on a finite set of tasks that is closed under enqueueing and
carries a rank that strictly decreases from an analysed task to every task it
enqueues (an acyclic reference graph, at most `b` tasks enqueued per analysed
task), the drain loop started on a worklist of such tasks stops, with an empty
worklist or with an exception, within `potential` many iterations; each
iteration removes the head of the worklist and appends the tasks enqueued for
it, whether or not their canonical URL is already recorded. -/
theorem drain_terminates_of_rank (w : World) (appName : String) (rank : Task → Nat) (b : Nat)
    (tasks : List Task) (hok : ∀ t ∈ tasks, rankOk w appName rank b tasks t = true)
    (s : State) (hs : ∀ t ∈ s.filesToAnalyze, t ∈ tasks) (fuel : Nat)
    (hfuel : potential rank b s.filesToAnalyze ≤ fuel) :
    ((∃ s1, drain w appName fuel s = .done s1 ∧ s1.filesToAnalyze = []) ∨
      (∃ e, drain w appName fuel s = .threw e)) ∧
    (∀ file rest, s.filesToAnalyze = file :: rest →
      (∀ e, enqueued w appName file = .error e → drainStep w appName s = .error e) ∧
      (∀ new, enqueued w appName file = .ok new →
        ∃ s1, drainStep w appName s = .ok s1 ∧ s1.filesToAnalyze = rest ++ new)) :=
  ⟨drain_stops w appName rank b tasks hok fuel s hs hfuel,
   fun file rest hq => drainStep_of_enqueued w appName file rest s hq⟩

/-- C2, amended, on the chain `a.js` imports `b.js` imports an external URL:
three iterations empty the worklist. -/
theorem drain_terminates_of_rank_witness :
    (∀ t ∈ [taskA, taskB], rankOk chainWorld "app" chainRank 1 [taskA, taskB] t = true) ∧
    potential chainRank 1 (seededState [taskA, taskB]).filesToAnalyze ≤ 3 ∧
    (∃ s1, drain chainWorld "app" 3 (seededState [taskA, taskB]) = .done s1 ∧
      s1.filesToAnalyze = []) :=
  ⟨by decide, by decide,
   ((drain_terminates_of_rank chainWorld "app" chainRank 1 [taskA, taskB] (by decide)
      (seededState [taskA, taskB]) (by decide) 3 (by decide)).1).resolve_right
     (by
        rintro ⟨e, he⟩
        obtain ⟨s1, h1⟩ : ∃ s1, drain chainWorld "app" 3 (seededState [taskA, taskB]) = .done s1 :=
          ⟨_, rfl⟩
        rw [h1] at he
        cases he)⟩

/-! ## Fetch outcomes -/

theorem pushIfJavascript_of_notExpandable (s : State) (b : String) (r : Response)
    (h : notExpandable r = true) : pushIfJavascript s b r = .ok s := by
  unfold notExpandable at h
  unfold pushIfJavascript okAndJavascript isJavascript
  cases hok : r.ok with
  | false => simp
  | true =>
    cases hct : r.contentType with
    | none => simp [hok, hct] at h
    | some ct =>
      simp only [hok, hct, Bool.not_true, Bool.false_or, Bool.not_eq_true'] at h
      simp [h]

theorem addToManifestEntries_recorded (w : World) (appName : String) (s : State) (u : String) :
    canonicalUrl appName u ∈ entryUrls (addToManifestEntries w appName s u) ∨
      canonicalUrl appName u ∈ s.globPatterns := by
  unfold addToManifestEntries
  by_cases hg : canonicalUrl appName u ∈ s.globPatterns
  · exact Or.inr hg
  · left
    by_cases he : canonicalUrl appName u ∈ entryUrls s
    · have h2 := (any_url_iff _ _).2 he
      simp only [h2, Bool.not_true, Bool.and_false, Bool.false_eq_true, if_false]
      exact he
    · have h2 : (s.additionalManifestEntries.any
          (fun e => e.url == canonicalUrl appName u)) = false := by
        rw [Bool.eq_false_iff]
        intro h
        exact he ((any_url_iff _ _).1 h)
      have h3 : s.globPatterns.contains (canonicalUrl appName u) = false := by
        rw [Bool.eq_false_iff]
        intro h
        exact hg (by simpa using h)
      simp only [h2, h3, Bool.not_false, Bool.and_self, if_true]
      simp [entryUrls]

/-- C3 fails for a network error: in the chain `a.js`, `b.js`, external URL,
with the fetch of the external URL rejecting, processing the reference throws
and so does the whole build. -/
theorem fetch_rejection_throws :
    processUrl unreachableWorld "app" taskB (seededState [taskB])
      (.str "https://cdn.example.com/c.js") = .error .fetchRejected ∧
    buildServiceWorker unreachableWorld plainContext "app" "/d" ["/d/a.js", "/d/b.js"] 3
      = .threw .fetchRejected := by
  constructor
  · rfl
  · rfl

theorem missing_content_type_throws :
    processUrl untypedWorld "app" taskB (seededState [taskB])
      (.str "https://cdn.example.com/c.js") = .error .typeError ∧
    buildServiceWorker untypedWorld plainContext "app" "/d" ["/d/a.js", "/d/b.js"] 3
      = .threw .typeError := by
  constructor
  · rfl
  · rfl

/-- C3, amended: for a reference beginning with `http`, and for a reference
found by a task without file path, whose fetch resolves with a status that is
not 2xx or with a content type that is present and does not contain
`javascript`, processing the reference does not throw, its canonical URL is
recorded (among the entries, or it already is a glob pattern) and the worklist
is left as it is, whereas a fetch that rejects makes the processing throw; and
in the chain `a.js`, `b.js`, external URL answering 404, the build completes
with `a.js` and `b.js` as glob patterns and the external URL as an entry,
analysing `b.js` enqueuing nothing. -/
theorem failed_fetch_recorded_not_expanded (w : World) (appName : String) (file : Task)
    (s : State) (url target : String)
    (htarget : target = if startsWith url "http" then url
      else resolveFromContent w appName file.baseUrl url)
    (hkind : startsWith url "http" = true ∨ truthyField file.filePath = false) :
    (∀ r : Response, w.fetch target = some r → notExpandable r = true →
      processUrl w appName file s (.str url) = .ok (addToManifestEntries w appName s target) ∧
      (addToManifestEntries w appName s target).filesToAnalyze = s.filesToAnalyze ∧
      (canonicalUrl appName target ∈ entryUrls (addToManifestEntries w appName s target) ∨
        canonicalUrl appName target ∈ s.globPatterns)) ∧
    (w.fetch target = none →
      processUrl w appName file s (.str url) = .error .fetchRejected) ∧
    buildServiceWorker chainWorld plainContext "app" "/d" ["/d/a.js", "/d/b.js"] 3
      = .done chainFinal ∧
    enqueued chainWorld "app" taskB = .ok [] := by
  have h2 : startsWith url "http" = false → truthyField file.filePath = false := by
    intro h1
    rcases hkind with h | h
    · rw [h1] at h; cases h
    · exact h
  refine ⟨fun r hfetch hr => ⟨?_, addToManifestEntries_filesToAnalyze w appName s target,
    addToManifestEntries_recorded w appName s target⟩, fun hfetch => ?_, by rfl, by rfl⟩
  · unfold processUrl resolveUrl
    cases h1 : startsWith url "http" with
    | true =>
      rw [h1, if_pos rfl] at htarget
      subst htarget
      simp only [h1, if_true, hfetch, pushIfJavascript_of_notExpandable s _ r hr]
    | false =>
      rw [h1] at htarget
      simp only [Bool.false_eq_true, if_false] at htarget
      subst htarget
      simp only [h1, Bool.false_eq_true, if_false, h2 h1, Bool.not_false, if_true, hfetch,
        pushIfJavascript_of_notExpandable s _ r hr]
  · unfold processUrl resolveUrl
    cases h1 : startsWith url "http" with
    | true =>
      rw [h1, if_pos rfl] at htarget
      subst htarget
      simp only [h1, if_true, hfetch]
    | false =>
      rw [h1] at htarget
      simp only [Bool.false_eq_true, if_false] at htarget
      subst htarget
      simp only [h1, Bool.false_eq_true, if_false, h2 h1, Bool.not_false, if_true, hfetch]

/-- C3, amended, on the chain with the external URL answering 404. -/
theorem failed_fetch_recorded_not_expanded_witness :
    processUrl chainWorld "app" taskB (seededState [taskB])
        (.str "https://cdn.example.com/c.js")
      = .ok (addToManifestEntries chainWorld "app" (seededState [taskB])
          "https://cdn.example.com/c.js") ∧
    entryUrls (addToManifestEntries chainWorld "app" (seededState [taskB])
        "https://cdn.example.com/c.js")
      = ["index.html", "/_openbamz_admin.js?appName=app", "https://cdn.example.com/c.js"] :=
  ⟨((failed_fetch_recorded_not_expanded chainWorld "app" taskB (seededState [taskB])
      "https://cdn.example.com/c.js" "https://cdn.example.com/c.js"
      (by decide) (by decide)).1
      { ok := false, contentType := some "text/html", text := "Not Found" }
      (by rfl) (by decide)).1,
   by decide⟩

/-! ## JS import extractor -/

theorem occurs_isObjectLike (n t : JsVal) (h : Occurs n t) : t.isObjectLike = true := by
  cases h with
  | here h => exact h
  | prop k v props _ _ => rfl
  | item v items _ _ => rfl

theorem findInProps_mem (props : List (String × JsVal)) :
    ∀ sub, findInProps props = .ok sub → ∀ k v, (k, v) ∈ props → v.isObjectLike = true →
      ∃ uv, findImportURLs v = .ok uv ∧ ∀ x ∈ uv, x ∈ sub := by
  induction props with
  | nil => intro sub _ k v hm; cases hm
  | cons p rest ih =>
    obtain ⟨k1, v1⟩ := p
    intro sub h k v hm hv
    rw [findInProps] at h
    cases ha : (if v1.isObjectLike = true then findImportURLs v1 else .ok []) with
    | error e => rw [ha] at h; cases h
    | ok a =>
      rw [ha] at h
      cases hb : findInProps rest with
      | error e => rw [hb] at h; cases h
      | ok b =>
        rw [hb] at h
        cases h
        rcases List.mem_cons.1 hm with heq | hrest
        · cases heq
          rw [if_pos hv] at ha
          exact ⟨a, ha, fun x hx => List.mem_append_left _ hx⟩
        · obtain ⟨uv, huv, hsub⟩ := ih b hb k v hrest hv
          exact ⟨uv, huv, fun x hx => List.mem_append_right _ (hsub x hx)⟩

theorem findInItems_mem (items : List JsVal) :
    ∀ sub, findInItems items = .ok sub → ∀ v, v ∈ items → v.isObjectLike = true →
      ∃ uv, findImportURLs v = .ok uv ∧ ∀ x ∈ uv, x ∈ sub := by
  induction items with
  | nil => intro sub _ v hm; cases hm
  | cons v1 rest ih =>
    intro sub h v hm hv
    rw [findInItems] at h
    cases ha : (if v1.isObjectLike = true then findImportURLs v1 else .ok []) with
    | error e => rw [ha] at h; cases h
    | ok a =>
      rw [ha] at h
      cases hb : findInItems rest with
      | error e => rw [hb] at h; cases h
      | ok b =>
        rw [hb] at h
        cases h
        rcases List.mem_cons.1 hm with heq | hrest
        · subst heq
          rw [if_pos hv] at ha
          exact ⟨a, ha, fun x hx => List.mem_append_left _ hx⟩
        · obtain ⟨uv, huv, hsub⟩ := ih b hb v hrest hv
          exact ⟨uv, huv, fun x hx => List.mem_append_right _ (hsub x hx)⟩

theorem findImportURLs_own_subset (n t : JsVal) (h : Occurs n t) :
    ∀ urls, findImportURLs t = .ok urls →
      ∃ own, ownImports n = .ok own ∧ ∀ x ∈ own, x ∈ urls := by
  induction h with
  | here hn =>
    intro urls hu
    cases n with
    | obj props =>
      rw [findImportURLs] at hu
      cases ho : ownImports (.obj props) with
      | error e => rw [ho] at hu; cases hu
      | ok own =>
        rw [ho] at hu
        cases hs : findInProps props with
        | error e => rw [hs] at hu; cases hu
        | ok sub =>
          rw [hs] at hu
          cases hu
          exact ⟨own, rfl, fun x hx => List.mem_append_left _ hx⟩
    | arr items => exact ⟨[], rfl, fun x hx => by cases hx⟩
    | undefined => cases hn
    | null => cases hn
    | bool b => cases hn
    | num m => cases hn
    | str s => cases hn
  | prop k v props hm hocc ih =>
    intro urls hu
    rw [findImportURLs] at hu
    cases ho : ownImports (.obj props) with
    | error e => rw [ho] at hu; cases hu
    | ok own =>
      rw [ho] at hu
      cases hs : findInProps props with
      | error e => rw [hs] at hu; cases hu
      | ok sub =>
        rw [hs] at hu
        cases hu
        obtain ⟨uv, huv, hsub⟩ :=
          findInProps_mem props sub hs k v hm (occurs_isObjectLike n v hocc)
        obtain ⟨own1, hown1, hin⟩ := ih uv huv
        exact ⟨own1, hown1, fun x hx => List.mem_append_right _ (hsub x (hin x hx))⟩
  | item v items hm hocc ih =>
    intro urls hu
    rw [findImportURLs] at hu
    obtain ⟨uv, huv, hsub⟩ :=
      findInItems_mem items urls hu v hm (occurs_isObjectLike n v hocc)
    obtain ⟨own1, hown1, hin⟩ := ih uv huv
    exact ⟨own1, hown1, fun x hx => hsub x (hin x hx)⟩

theorem ownImports_importDeclaration (props sprops : List (String × JsVal))
    (hty : JsVal.lookup "type" props = .str "ImportDeclaration")
    (hsrc : JsVal.lookup "source" props = .obj sprops) :
    ownImports (.obj props) = .ok [JsVal.lookup "value" sprops] := by
  simp [ownImports, JsVal.getProp, hty, hsrc, JsVal.isStr]

theorem importDeclaration_found (tree : JsVal) (props sprops : List (String × JsVal))
    (urls : List JsVal) (hocc : Occurs (.obj props) tree)
    (hty : JsVal.lookup "type" props = .str "ImportDeclaration")
    (hsrc : JsVal.lookup "source" props = .obj sprops)
    (hu : findImportURLs tree = .ok urls) : JsVal.lookup "value" sprops ∈ urls := by
  obtain ⟨own, hown, hin⟩ := findImportURLs_own_subset _ _ hocc urls hu
  rw [ownImports_importDeclaration props sprops hty hsrc] at hown
  cases hown
  exact hin _ (List.mem_singleton_self _)

mutual
theorem findImportURLs_ok_of_own_ok : ∀ t : JsVal, t.isObjectLike = true →
    (∀ n, Occurs n t → ∃ own, ownImports n = .ok own) → ∃ urls, findImportURLs t = .ok urls
  | .obj props, _, h => by
    obtain ⟨own, hown⟩ := h (.obj props) (Occurs.here rfl)
    obtain ⟨sub, hsub⟩ := findInProps_ok_of_own_ok props
      (fun k v hm n hn => h n (Occurs.prop k v props hm hn))
    exact ⟨own ++ sub, by rw [findImportURLs, hown, hsub]⟩
  | .arr items, _, h => by
    obtain ⟨sub, hsub⟩ := findInItems_ok_of_own_ok items
      (fun v hm n hn => h n (Occurs.item v items hm hn))
    exact ⟨sub, by rw [findImportURLs, hsub]⟩
  | .undefined, ht, _ => by cases ht
  | .null, ht, _ => by cases ht
  | .bool _, ht, _ => by cases ht
  | .num _, ht, _ => by cases ht
  | .str _, ht, _ => by cases ht
theorem findInProps_ok_of_own_ok : ∀ props : List (String × JsVal),
    (∀ k v, (k, v) ∈ props → ∀ n, Occurs n v → ∃ own, ownImports n = .ok own) →
    ∃ sub, findInProps props = .ok sub
  | [], _ => ⟨[], rfl⟩
  | (k, v) :: rest, h => by
    obtain ⟨b, hb⟩ := findInProps_ok_of_own_ok rest
      (fun k1 v1 hm => h k1 v1 (List.mem_cons_of_mem _ hm))
    by_cases hv : v.isObjectLike = true
    · obtain ⟨a, ha⟩ := findImportURLs_ok_of_own_ok v hv (h k v (List.mem_cons_self _ _))
      exact ⟨a ++ b, by rw [findInProps, if_pos hv, ha, hb]⟩
    · exact ⟨[] ++ b, by rw [findInProps, if_neg hv, hb]⟩
theorem findInItems_ok_of_own_ok : ∀ items : List JsVal,
    (∀ v, v ∈ items → ∀ n, Occurs n v → ∃ own, ownImports n = .ok own) →
    ∃ sub, findInItems items = .ok sub
  | [], _ => ⟨[], rfl⟩
  | v :: rest, h => by
    obtain ⟨b, hb⟩ := findInItems_ok_of_own_ok rest
      (fun v1 hm => h v1 (List.mem_cons_of_mem _ hm))
    by_cases hv : v.isObjectLike = true
    · obtain ⟨a, ha⟩ := findImportURLs_ok_of_own_ok v hv (h v (List.mem_cons_self _ _))
      exact ⟨a ++ b, by rw [findInItems, if_pos hv, ha, hb]⟩
    · exact ⟨[] ++ b, by rw [findInItems, if_neg hv, hb]⟩
end

mutual
theorem findImportURLs_preorder : ∀ (t : JsVal) (urls : List JsVal),
    findImportURLs t = .ok urls → urls = preorder t
  | .obj props, urls, h => by
    rw [findImportURLs] at h
    cases ho : ownImports (.obj props) with
    | error e => rw [ho] at h; cases h
    | ok own =>
      rw [ho] at h
      cases hs : findInProps props with
      | error e => rw [hs] at h; cases h
      | ok sub =>
        rw [hs] at h
        cases h
        rw [preorder, ownSpecifiers, ho, ← findInProps_preorder props sub hs]
  | .arr items, urls, h => by
    rw [findImportURLs] at h
    rw [preorder, ← findInItems_preorder items urls h]
  | .undefined, urls, h => by cases h
  | .null, urls, h => by cases h
  | .bool _, urls, h => by cases h; rfl
  | .num _, urls, h => by cases h; rfl
  | .str _, urls, h => by cases h; rfl
theorem findInProps_preorder : ∀ (props : List (String × JsVal)) (sub : List JsVal),
    findInProps props = .ok sub → sub = preorderProps props
  | [], sub, h => by cases h; rfl
  | (k, v) :: rest, sub, h => by
    rw [findInProps] at h
    by_cases hv : v.isObjectLike = true
    · rw [if_pos hv] at h
      cases ha : findImportURLs v with
      | error e => rw [ha] at h; cases h
      | ok a =>
        rw [ha] at h
        cases hb : findInProps rest with
        | error e => rw [hb] at h; cases h
        | ok b =>
          rw [hb] at h
          cases h
          rw [preorderProps, if_pos hv, ← findImportURLs_preorder v a ha,
            ← findInProps_preorder rest b hb]
    · rw [if_neg hv] at h
      cases hb : findInProps rest with
      | error e => rw [hb] at h; cases h
      | ok b =>
        rw [hb] at h
        cases h
        rw [preorderProps, if_neg hv, ← findInProps_preorder rest b hb]
theorem findInItems_preorder : ∀ (items : List JsVal) (sub : List JsVal),
    findInItems items = .ok sub → sub = preorderItems items
  | [], sub, h => by cases h; rfl
  | v :: rest, sub, h => by
    rw [findInItems] at h
    by_cases hv : v.isObjectLike = true
    · rw [if_pos hv] at h
      cases ha : findImportURLs v with
      | error e => rw [ha] at h; cases h
      | ok a =>
        rw [ha] at h
        cases hb : findInItems rest with
        | error e => rw [hb] at h; cases h
        | ok b =>
          rw [hb] at h
          cases h
          rw [preorderItems, if_pos hv, ← findImportURLs_preorder v a ha,
            ← findInItems_preorder rest b hb]
    · rw [if_neg hv] at h
      cases hb : findInItems rest with
      | error e => rw [hb] at h; cases h
      | ok b =>
        rw [hb] at h
        cases h
        rw [preorderItems, if_neg hv, ← findInItems_preorder rest b hb]
end

/-- C4 at the module `{ import "mod" } import(true)`: the static import occurs
in the tree, but the traversal throws at the dynamic import whose argument is
the literal `true` (`.replace` is called on a value that is not a string), so
`findImportURLs` returns nothing and the extraction of the source is empty. -/
theorem static_import_lost_by_throw :
    Occurs (importDeclaration 2 "mod" "\"mod\"") nestedImportThenBooleanImport ∧
    findImportURLs nestedImportThenBooleanImport = .error .typeError ∧
    stringsOf (extractUrlsFromJsContent parserWorld "\x7b import \"mod\" \x7d import(true)") = [] := by
  refine ⟨?_, by rfl, by decide⟩
  have hblock : Occurs (importDeclaration 2 "mod" "\"mod\"")
      (blockStatement 0 16 [importDeclaration 2 "mod" "\"mod\""]) := by
    unfold blockStatement
    exact Occurs.prop "body" (.arr [importDeclaration 2 "mod" "\"mod\""]) _ (by simp)
      (Occurs.item _ _ (List.mem_singleton_self _) (Occurs.here rfl))
  unfold nestedImportThenBooleanImport program
  exact Occurs.prop "body"
    (.arr [blockStatement 0 16 [importDeclaration 2 "mod" "\"mod\""],
      expressionStatement 17 29 (importExpression 17 29 (booleanLiteral 24 true "true"))])
    _ (by simp) (Occurs.item _ _ (List.mem_cons_self _ _) hblock)

theorem stripLeadingQuote_of_head (s : String) (h : s.data.head? ≠ some apostrophe) :
    stripLeadingQuote s = s := by
  unfold stripLeadingQuote
  cases hd : s.data with
  | nil => rfl
  | cons c t =>
    rw [hd] at h
    simp only [List.head?_cons, ne_eq, Option.some.injEq] at h
    simp [h]

theorem stripTrailingQuote_of_last (s : String) (h : s.data.getLast? ≠ some apostrophe) :
    stripTrailingQuote s = s := by
  unfold stripTrailingQuote
  cases hd : s.data.reverse with
  | nil => rfl
  | cons c t =>
    have h2 : s.data.getLast? = some c := by
      rw [← List.head?_reverse, hd]
      rfl
    rw [h2] at h
    simp only [ne_eq, Option.some.injEq] at h
    simp [h]

/-- C5 fails: the literal with value `'a'` (apostrophes included) yields `a`,
and the literal with the empty value yields nothing. -/
theorem dynamic_import_literal_altered :
    specifierStrings (findImportURLs
        (importExpression 0 14 (stringLiteral 7 "'a'" "\"'a'\""))) = some ["a"] ∧
    specifierStrings (findImportURLs
        (importExpression 0 14 (stringLiteral 7 "'a'" "\"'a'\""))) ≠ some ["'a'"] ∧
    specifierStrings (findImportURLs
        (importExpression 0 10 (stringLiteral 7 "" "\"\""))) = some [] := by
  refine ⟨by decide, by decide, by decide⟩

/-- C5, amended: for every non-empty string `s`, `findImportURLs` applied to a
dynamic import whose argument is the string literal with value `s` returns
exactly one specifier, `s` with one leading and then one trailing apostrophe
removed; this is `s` itself when `s` neither begins nor ends with an
apostrophe. The same holds when the node records `options: null`. -/
theorem dynamic_import_literal_stripped (pos endPos litPos : Int) (s raw : String)
    (h : s ≠ "") :
    findImportURLs (importExpression pos endPos (stringLiteral litPos s raw))
      = .ok [.str (stripTrailingQuote (stripLeadingQuote s))] ∧
    findImportURLs (importExpressionNullOptions pos endPos (stringLiteral litPos s raw))
      = .ok [.str (stripTrailingQuote (stripLeadingQuote s))] ∧
    (s.data.head? ≠ some apostrophe → s.data.getLast? ≠ some apostrophe →
      findImportURLs (importExpression pos endPos (stringLiteral litPos s raw))
        = .ok [.str s]) := by
  have h1 : findImportURLs (importExpression pos endPos (stringLiteral litPos s raw))
      = .ok [.str (stripTrailingQuote (stripLeadingQuote s))] := by
    simp [importExpression, stringLiteral, findImportURLs, findInProps, ownImports,
      JsVal.getProp, JsVal.lookup, JsVal.isStr, JsVal.truthy, JsVal.isObjectLike, h]
  have h2 : findImportURLs (importExpressionNullOptions pos endPos (stringLiteral litPos s raw))
      = .ok [.str (stripTrailingQuote (stripLeadingQuote s))] := by
    simp [importExpressionNullOptions, stringLiteral, findImportURLs, findInProps, ownImports,
      JsVal.getProp, JsVal.lookup, JsVal.isStr, JsVal.truthy, JsVal.isObjectLike, h]
  refine ⟨h1, h2, fun hh hl => ?_⟩
  rw [h1, stripLeadingQuote_of_head s hh, stripTrailingQuote_of_last s hl]

/-- C5, amended, at `import("./lib.js")` and at `import("'a'")`. -/
theorem dynamic_import_literal_stripped_witness :
    findImportURLs (importExpression 0 17 (stringLiteral 7 "./lib.js" "\"./lib.js\""))
      = .ok [.str "./lib.js"] ∧
    findImportURLs (importExpression 0 14 (stringLiteral 7 "'a'" "\"'a'\""))
      = .ok [.str (stripTrailingQuote (stripLeadingQuote "'a'"))] :=
  ⟨(dynamic_import_literal_stripped 0 17 7 "./lib.js" "\"./lib.js\"" (by decide)).2.2
      (by decide) (by decide),
   (dynamic_import_literal_stripped 0 14 7 "'a'" "\"'a'\"" (by decide)).1⟩

/-- C6 at the module `import(5); import "./x.js"`: the dynamic import of the
numeric literal makes the traversal throw, the extractor catches the error and
returns no specifier at all, so the static import of `./x.js` is lost; with an
identifier and a template literal as arguments the static import is returned. -/
theorem numeric_dynamic_import_drops_all :
    findImportURLs numericImportThenStaticImport = .error .typeError ∧
    stringsOf (extractUrlsFromJsContent parserWorld "import(5); import \"./x.js\"") = [] ∧
    findImportURLs (importExpression 0 14 (regexLiteral 7 "x" "" "/x/")) = .error .typeError ∧
    stringsOf (extractUrlsFromJsContent parserWorld
      "import(name); import(tpl); import \"./x.js\"") = ["./x.js"] := by
  refine ⟨by rfl, by decide, by rfl, by decide⟩

/-! ## HTML reference extractor -/

theorem pushed_eq_listed_iff (e : Element) :
    (if selected e then pushedUrl e else none) = listedUrl e ↔
      readsOtherAttribute e = false := by
  obtain ⟨tag, src, href, rel⟩ := e
  unfold selected pushedUrl srcOrHref listedUrl readsOtherAttribute
  have hne : ¬ startsWith "" "https://" = true := by decide
  by_cases hp : rel = some "preconnect"
  · subst hp
    cases src <;> cases href <;> simp <;> split <;> simp
  · by_cases hs : tag = "script"
    · subst hs
      cases src with
      | none => cases href <;> simp [hp]
      | some u =>
        cases href with
        | none =>
          by_cases hu : u = ""
          · subst hu; simp [hp, hne, Option.filter]
          · simp [hp, hu, Option.filter]
        | some v =>
          by_cases hu : u = ""
          · subst hu
            by_cases hv : v = ""
            · subst hv; simp [hp, hne, Option.filter]
            · cases hvs : startsWith v "https://" <;> simp [hp, hne, hv, hvs, Option.filter]
          · simp [hp, hu, Option.filter]
    · by_cases hl : tag = "link"
      · subst hl
        cases href with
        | none => cases src <;> simp [hp]
        | some v =>
          cases src with
          | none =>
            by_cases hv : v = ""
            · subst hv; simp [hp, hne, Option.filter]
            · simp [hp, hv, Option.filter]
          | some u =>
            by_cases hu : u = ""
            · subst hu
              by_cases hv : v = ""
              · subst hv; simp [hp, hne, Option.filter]
              · simp [hp, hv, Option.filter]
            · by_cases huv : u = v
              · subst huv
                cases hus : startsWith u "https://" <;> simp [hp, hu, hus, Option.filter]
              · cases hus : startsWith u "https://" <;> cases hvs : startsWith v "https://" <;>
                  simp [hp, hu, hus, hvs, huv, Option.filter]
      · cases src <;> cases href <;> simp [hp, hs, hl]

theorem extractUrlsFromHTML_single (e : Element) :
    extractUrlsFromHTML [e] = (if selected e then pushedUrl e else none).toList := by
  unfold extractUrlsFromHTML
  by_cases hsel : selected e = true
  · rw [List.filter_cons_of_pos hsel, if_pos hsel]
    cases hp : pushedUrl e <;> simp [hp]
  · rw [List.filter_cons_of_neg hsel, if_neg hsel]
    rfl

theorem filterMap_listed_single (e : Element) :
    [e].filterMap listedUrl = (listedUrl e).toList := by
  cases hp : listedUrl e <;> simp [hp]

theorem toList_injective (a b : Option String) (h : a.toList = b.toList) : a = b := by
  cases a <;> cases b <;> simp_all

/-- C7 fails on the elements for which `src || href` reads the other
attribute: a link that also carries a `src` yields its `src` instead of its
`href`, or nothing when that `src` does not begin with `https://`, and a script
with an empty `src` yields its `href`. -/
theorem src_or_href_reads_other_attribute :
    extractUrlsFromHTML linkWithSrc = ["https://b.example.com/y.js"] ∧
    linkWithSrc.filterMap listedUrl = ["https://a.example.com/x.css"] ∧
    extractUrlsFromHTML linkWithLocalSrc = [] ∧
    linkWithLocalSrc.filterMap listedUrl = ["https://a.example.com/x.css"] ∧
    extractUrlsFromHTML scriptWithEmptySrc = ["https://cdn.example.com/a.js"] ∧
    scriptWithEmptySrc.filterMap listedUrl = [] := by
  refine ⟨by decide, by decide, by decide, by decide, by decide, by decide⟩

/-- C7, amended: for every HTML document without an element on which the code
reads the other attribute with a different outcome (a link with an `href` and
a non-empty `src` different from it, one of the two beginning with `https://`,
or a script with an empty `src` and an `href` beginning with `https://`, the
`rel` not being `preconnect`), `extractUrlsFromHTML` returns in document order
exactly the `src` of every script element and the `href` of every link element
whose value begins with `https://`, leaving out every element whose `rel` is
`preconnect`; on every excluded element taken alone the result differs from
that; for the preconnect link followed by the script the result is that one
script URL. -/
theorem extractUrlsFromHTML_listed (doc : List Element)
    (h : ∀ e ∈ doc, readsOtherAttribute e = false) :
    extractUrlsFromHTML doc = doc.filterMap listedUrl ∧
    (∀ e : Element, readsOtherAttribute e = true →
      extractUrlsFromHTML [e] ≠ [e].filterMap listedUrl) ∧
    extractUrlsFromHTML preconnectThenScript = ["https://cdn.example.com/a.js"] := by
  refine ⟨?_, ?_, by decide⟩
  · unfold extractUrlsFromHTML
    induction doc with
    | nil => rfl
    | cons e rest ih =>
      have he := (pushed_eq_listed_iff e).2 (h e (List.mem_cons_self _ _))
      have hrest := ih (fun x hx => h x (List.mem_cons_of_mem _ hx))
      by_cases hsel : selected e = true
      · rw [List.filter_cons_of_pos hsel, List.filterMap_cons, List.filterMap_cons, ← he,
          if_pos hsel, hrest]
      · rw [List.filter_cons_of_neg hsel, List.filterMap_cons, ← he, if_neg hsel, hrest]
  · intro e he heq
    rw [extractUrlsFromHTML_single, filterMap_listed_single] at heq
    have := (pushed_eq_listed_iff e).1 (toList_injective _ _ heq)
    rw [this] at he
    cases he

/-- C7, amended, on the preconnect link followed by the script and on a
document whose elements carry both attributes. -/
theorem extractUrlsFromHTML_listed_witness :
    extractUrlsFromHTML preconnectThenScript = preconnectThenScript.filterMap listedUrl ∧
    extractUrlsFromHTML bothAttributes = bothAttributes.filterMap listedUrl ∧
    extractUrlsFromHTML bothAttributes
      = ["https://cdn.example.com/a.js", "https://a.example.com/x.css",
         "https://a.example.com/y.css"] :=
  ⟨(extractUrlsFromHTML_listed preconnectThenScript (by decide)).1,
   (extractUrlsFromHTML_listed bothAttributes (by decide)).1,
   by decide⟩

/-! ## Resolution of a reference beginning with `/` against a fetched URL -/

theorem indexOfL_append_slash (a r : List Char) (h : '/' ∉ a) :
    ∀ pos : Nat, indexOfL '/' (a ++ '/' :: r) pos = ((pos + a.length : Nat) : Int) := by
  induction a with
  | nil => intro pos; simp [indexOfL]
  | cons c t ih =>
    intro pos
    have hc : c ≠ '/' := fun hc => h (by rw [hc]; exact List.mem_cons_self _ _)
    have ht : '/' ∉ t := fun hm => h (List.mem_cons_of_mem _ hm)
    rw [List.cons_append, indexOfL, if_neg hc, ih ht (pos + 1)]
    congr 1
    simp only [List.length_cons]
    omega

theorem stripDotSlash_of_slash (ref : String) (h : startsWith ref "/" = true) :
    stripDotSlash ref = ref := by
  unfold stripDotSlash
  unfold startsWith at h
  cases hd : ref.data with
  | nil => rfl
  | cons c t =>
    rw [hd] at h
    have hc : c = '/' := by
      have h2 : '/' = c := by simpa [List.isPrefixOf] using h
      exact h2.symm
    subst hc
    rfl

theorem substring0_origin (pre auth rest : List Char) (hpre : pre.length ≤ 9)
    (hlen : 9 ≤ pre.length + auth.length) (hauth : '/' ∉ auth) :
    substring0 ⟨pre ++ auth ++ '/' :: rest⟩ (indexOfFrom ⟨pre ++ auth ++ '/' :: rest⟩ '/' 9)
      = ⟨pre ++ auth⟩ := by
  unfold substring0 indexOfFrom
  simp only
  have hdrop : (pre ++ auth ++ '/' :: rest).drop 9
      = auth.drop (9 - pre.length) ++ '/' :: rest := by
    rw [List.append_assoc, List.drop_append_eq_append_drop,
      List.drop_eq_nil_of_le hpre, List.nil_append, List.drop_append_eq_append_drop]
    have h0 : 9 - pre.length - auth.length = 0 := by omega
    rw [h0, List.drop_zero]
  have hnot : '/' ∉ auth.drop (9 - pre.length) := fun hm => hauth (List.mem_of_mem_drop hm)
  rw [hdrop, indexOfL_append_slash _ _ hnot 9]
  have hl : (9 + (auth.drop (9 - pre.length)).length) = pre.length + auth.length := by
    rw [List.length_drop]
    omega
  rw [hl, Int.toNat_ofNat]
  congr 1
  rw [← List.length_append, List.take_left]

/-- C8 fails in three ways: an identity without path resolves to the bare
reference, an `http://` identity with a one-character host keeps a part of its
path, and an identity on the local origin gets `?appName=<app>` appended. -/
theorem root_relative_resolution_deviates :
    resolveFromContent baseWorld "app" "https://cdn.example.com" "/a.js" = "/a.js" ∧
    resolveFromContent baseWorld "app" "http://a/lib/x.js" "/y.js" = "http://a/lib/y.js" ∧
    resolveFromContent baseWorld "app" "http://localhost:3000/plugin/p/lib.mjs" "/x.js"
      = "http://localhost:3000/x.js?appName=app" := by
  refine ⟨by decide, by decide, by decide⟩

/-- C8, amended: for every content-bearing task whose identity is
`<scheme>://<authority>/<rest>` with scheme `http` or `https`, an authority
without `/` and the `/` after the authority at index 9 or later, and every
reference beginning with `/`, the resolved URL is the scheme and authority
followed by the reference, followed by `?appName=<app>` when this begins with
the local origin. -/
theorem root_relative_resolution (w : World) (appName scheme authority rest ref : String)
    (hscheme : scheme = "http" ∨ scheme = "https") (hauth : '/' ∉ authority.data)
    (hlen : 9 ≤ scheme.length + 3 + authority.length) (href : startsWith ref "/" = true) :
    resolveFromContent w appName (scheme ++ "://" ++ authority ++ "/" ++ rest) ref
      = if startsWith (scheme ++ "://" ++ authority ++ ref) localBaseUrl then
          scheme ++ "://" ++ authority ++ ref ++ appNameParam appName
        else scheme ++ "://" ++ authority ++ ref := by
  unfold resolveFromContent
  rw [stripDotSlash_of_slash ref href]
  simp only [href, if_true]
  have hpre : (scheme ++ "://").data.length ≤ 9 := by
    rcases hscheme with h | h <;> subst h <;> decide
  have hlen2 : 9 ≤ (scheme ++ "://").data.length + authority.data.length := by
    have : (scheme ++ "://").data.length = scheme.length + 3 := by
      rw [String.data_append, List.length_append]
      rfl
    rw [this]
    exact hlen
  have hbase : scheme ++ "://" ++ authority ++ "/" ++ rest
      = ⟨(scheme ++ "://").data ++ authority.data ++ '/' :: rest.data⟩ := by
    apply String.ext
    simp [String.data_append]
  have horigin : (⟨(scheme ++ "://").data ++ authority.data⟩ : String)
      = scheme ++ "://" ++ authority := by
    apply String.ext
    simp [String.data_append]
  rw [hbase, substring0_origin _ _ _ hpre hlen2 hauth, horigin]

/-- C8, amended, at a CDN identity and at an identity on the local origin. -/
theorem root_relative_resolution_witness :
    resolveFromContent baseWorld "app" "https://cdn.example.com/lib/x.js" "/y.js"
      = "https://cdn.example.com/y.js" ∧
    resolveFromContent baseWorld "app" "http://localhost:3000/plugin/p/lib.mjs" "/x.js"
      = "http://localhost:3000/x.js?appName=app" :=
  ⟨root_relative_resolution baseWorld "app" "https" "cdn.example.com" "lib/x.js" "/y.js"
      (Or.inr rfl) (by decide) (by decide) (by decide),
   root_relative_resolution baseWorld "app" "http" "localhost:3000" "plugin/p/lib.mjs" "/x.js"
      (Or.inl rfl) (by decide) (by decide) (by decide)⟩

/-! ## Rebuild trigger -/

/-- C9: for every application and every `fileWritten` or `fileDeleted`
notification, the listener never calls `buildServiceWorker` when
`relativePath` is `sw.js`, whatever `hasCurrentPlugin` answers; for any other
`relativePath` it calls `buildServiceWorker` (for that application) exactly
once if `hasCurrentPlugin(appName)` holds and not at all otherwise. -/
theorem listener_rebuilds (hasCurrentPlugin : String → Bool) (event : FileEvent)
    (appName relativePath : String) :
    (relativePath = "sw.js" → onFileEvent hasCurrentPlugin event appName relativePath = []) ∧
    (relativePath ≠ "sw.js" →
      ((onFileEvent hasCurrentPlugin event appName relativePath).length = 1 ↔
        hasCurrentPlugin appName = true) ∧
      (hasCurrentPlugin appName = true →
        onFileEvent hasCurrentPlugin event appName relativePath = [appName]) ∧
      (hasCurrentPlugin appName = false →
        onFileEvent hasCurrentPlugin event appName relativePath = [])) := by
  constructor
  · intro h
    subst h
    cases event <;> simp [onFileEvent]
  · intro h
    cases hp : hasCurrentPlugin appName <;> cases event <;> simp [onFileEvent, h, hp]

/-- C9 at a write of `sw.js` and at a deletion of `app.js`, the plugin being
active. -/
theorem listener_rebuilds_witness :
    onFileEvent (fun _ => true) .fileWritten "app" "sw.js" = [] ∧
    onFileEvent (fun _ => true) .fileDeleted "app" "app.js" = ["app"] :=
  ⟨(listener_rebuilds (fun _ => true) .fileWritten "app" "sw.js").1 rfl,
   ((listener_rebuilds (fun _ => true) .fileDeleted "app" "app.js").2 (by decide)).2.1 rfl⟩

/-! ## Seeding from the file listing -/

theorem seedFiles_spec (w : World) (dir : String) (files : List String) :
    ∀ s : State,
      (seedFiles w dir s files).globPatterns
        = s.globPatterns ++ (files.map (w.pathRelative dir)).filter
            (fun r => r != "sw.js" && r != "index.html") ∧
      (seedFiles w dir s files).filesToAnalyze
        = s.filesToAnalyze ++
          (files.filter (fun f => w.pathRelative dir f != "sw.js" &&
              (endsWith f ".html" || endsWith f ".js" || endsWith f ".mjs"))).map
            (fun f => { baseUrl := w.pathRelative dir f, fileContent := none,
                        filePath := some f }) := by
  induction files with
  | nil => intro s; simp [seedFiles]
  | cons f rest ih =>
    intro s
    have hstep : seedFiles w dir s (f :: rest) = seedFiles w dir (seedFile w dir s f) rest := rfl
    rw [hstep]
    obtain ⟨hg, hq⟩ := ih (seedFile w dir s f)
    rw [hg, hq]
    by_cases hsw : w.pathRelative dir f = "sw.js"
    · simp [seedFile, hsw]
    · by_cases hext : (endsWith f ".html" || endsWith f ".js" || endsWith f ".mjs") = true
      · by_cases hidx : w.pathRelative dir f = "index.html"
        · simp [seedFile, hsw, hext, hidx]
        · simp [seedFile, hsw, hext, hidx]
      · by_cases hidx : w.pathRelative dir f = "index.html"
        · simp [seedFile, hsw, hext, hidx]
        · simp [seedFile, hsw, hext, hidx]

theorem isPrefixOf_append_slash (p : List Char) (h : '/' ∉ p) :
    ∀ a b : List Char, p.isPrefixOf (a ++ '/' :: b) = p.isPrefixOf a := by
  induction p with
  | nil => intro a b; simp
  | cons c t ih =>
    intro a b
    have hc : c ≠ '/' := fun hc => h (by rw [hc]; exact List.mem_cons_self _ _)
    have ht : '/' ∉ t := fun hm => h (List.mem_cons_of_mem _ hm)
    cases a with
    | nil => simp [List.isPrefixOf, hc]
    | cons x a1 =>
      have h2 := ih ht a1 b
      simp only [List.cons_append, List.isPrefixOf]
      exact congrArg (fun v => (c == x && v)) h2

theorem endsWith_under (dir rel ext : String) (h : '/' ∉ ext.data) :
    endsWith (dir ++ "/" ++ rel) ext = endsWith rel ext := by
  unfold endsWith
  have hd : (dir ++ "/" ++ rel).data.reverse = rel.data.reverse ++ '/' :: dir.data.reverse := by
    simp [String.data_append]
  rw [hd]
  exact isPrefixOf_append_slash _ (by simpa using h) _ _

theorem seedPlugins_queue (w : World) (appName : String) (ps : List (String × PluginData)) :
    ∀ s : State,
      (ps.foldl (seedPlugin w appName) s).filesToAnalyze
        = s.filesToAnalyze ++ ps.filterMap (pluginTask w) ∧
      (ps.foldl (seedPlugin w appName) s).globPatterns = s.globPatterns := by
  induction ps with
  | nil => intro s; simp
  | cons p rest ih =>
    intro s
    rw [List.foldl_cons]
    obtain ⟨hq, hg⟩ := ih (seedPlugin w appName s p)
    rw [hq, hg]
    unfold seedPlugin pluginTask
    cases hl : p.2.frontEndLib with
    | none => simp [hl]
    | some lib =>
      by_cases hne : (lib != "") = true
      · simp only [hne, if_true, List.filterMap_cons, hl, addToManifestEntries_filesToAnalyze,
          addToManifestEntries_globPatterns, List.append_assoc, List.singleton_append,
          and_self]
      · simp only [hne, List.filterMap_cons, hl, Bool.false_eq_true, if_false, and_self]

theorem seedUrlToCache_inv (w : World) (appName : String) (s : State) (u : String) (s1 : State)
    (hs : s.globPatterns = [] ∧ ∀ t ∈ s.filesToAnalyze, t.filePath = none)
    (h : seedUrlToCache w appName s u = .ok s1) :
    s1.globPatterns = [] ∧ ∀ t ∈ s1.filesToAnalyze, t.filePath = none := by
  unfold seedUrlToCache at h
  dsimp only at h
  split at h
  · cases h
  · rename_i r _
    unfold pushIfJavascript at h
    split at h
    · cases h
    · cases h
      refine ⟨by rw [addToManifestEntries_globPatterns]; exact hs.1, ?_⟩
      intro t ht
      simp only [List.mem_append, List.mem_singleton] at ht
      rcases ht with ht | ht
      · rw [addToManifestEntries_filesToAnalyze] at ht
        exact hs.2 t ht
      · rw [ht]
    · cases h
      refine ⟨by rw [addToManifestEntries_globPatterns]; exact hs.1, ?_⟩
      intro t ht
      rw [addToManifestEntries_filesToAnalyze] at ht
      exact hs.2 t ht

/-- C10: for every list of files, the loop over the listing appends to
`globPatterns` the relative paths of all listed files except `sw.js` and
`index.html`, in listing order, and appends to the worklist, as file-backed
tasks, exactly the listed files other than `sw.js` whose path ends in `.html`,
`.js` or `.mjs`, the entries being left as they are. After the whole seeding
`globPatterns` holds exactly these relative paths and the worklist holds the
content-bearing tasks of the registered URLs, then these file-backed tasks,
then the tasks of the plugins. For the listing `index.html`, `sw.js`, `app.js`,
`css/style.css` the glob patterns are `app.js`, `css/style.css` and the
worklist holds `index.html` and `app.js`. The test on the path of a listed
file is a test on its name: `dir/rel` ends in an extension exactly when `rel`
does. -/
theorem seeding_of_listing (w : World) (appName dir : String) (files : List String) :
    (∀ s : State,
      (seedFiles w dir s files).globPatterns
        = s.globPatterns ++ (files.map (w.pathRelative dir)).filter
            (fun r => r != "sw.js" && r != "index.html") ∧
      (seedFiles w dir s files).filesToAnalyze
        = s.filesToAnalyze ++ listingTasks w dir files ∧
      (seedFiles w dir s files).additionalManifestEntries = s.additionalManifestEntries) ∧
    (∀ (ctx : AppContext) (s : State), seed w ctx appName dir files = .ok s →
      s.globPatterns = (files.map (w.pathRelative dir)).filter
          (fun r => r != "sw.js" && r != "index.html") ∧
      ∃ fetched : List Task, (∀ t ∈ fetched, t.filePath = none) ∧
        s.filesToAnalyze
          = fetched ++ listingTasks w dir files ++ ctx.pluginsData.filterMap (pluginTask w)) ∧
    seed chainWorld plainContext "app" "/d" sampleListing
      = .ok { filesToAnalyze := [fileTask "index.html" "/d/index.html", fileTask "app.js" "/d/app.js"]
              globPatterns := ["app.js", "css/style.css"]
              additionalManifestEntries := (initialState chainWorld "app").additionalManifestEntries
              clock := 2 } ∧
    (∀ rel : String, endsWith (dir ++ "/" ++ rel) ".html" = endsWith rel ".html" ∧
      endsWith (dir ++ "/" ++ rel) ".js" = endsWith rel ".js" ∧
      endsWith (dir ++ "/" ++ rel) ".mjs" = endsWith rel ".mjs") := by
  refine ⟨fun s => ⟨(seedFiles_spec w dir files s).1, (seedFiles_spec w dir files s).2,
    seedFiles_entries w dir files s⟩, ?_, by rfl,
    fun rel => ⟨endsWith_under dir rel ".html" (by decide),
      endsWith_under dir rel ".js" (by decide), endsWith_under dir rel ".mjs" (by decide)⟩⟩
  intro ctx s h
  unfold seed at h
  split at h
  · cases h
  · rename_i s0 h0
    cases h
    have hinv := forEachE_inv
      (fun t : State => t.globPatterns = [] ∧ ∀ x ∈ t.filesToAnalyze, x.filePath = none)
      (seedUrlToCache w appName)
      (fun a b c ha hb => seedUrlToCache_inv w appName a b c ha hb) _ _ s0
      ⟨rfl, fun x hx => by cases hx⟩ h0
    obtain ⟨hq, hg⟩ := seedPlugins_queue w appName ctx.pluginsData (seedFiles w dir s0 files)
    obtain ⟨hfg, hfq⟩ := seedFiles_spec w dir files s0
    refine ⟨?_, s0.filesToAnalyze, hinv.2, ?_⟩
    · rw [hg, hfg, hinv.1, List.nil_append]
    · rw [hq, hfq]
      rfl


/-! ## Dispatch of a task by its kind -/

theorem taskUrls_content_nonempty (w : World) (baseUrl text : String) (h : text ≠ "") :
    taskUrls w (contentTask baseUrl text) = .ok (extractUrlsFromJsContent w text) := by
  simp [taskUrls, contentTask, truthyField, h]

theorem taskUrls_content_empty (w : World) (baseUrl : String) :
    taskUrls w (contentTask baseUrl "") = .error .typeError := by
  simp [taskUrls, contentTask, truthyField]

theorem pushIfJavascript_pushes (s s1 : State) (b : String) (r : Response)
    (h : pushIfJavascript s b r = .ok s1) :
    s1.filesToAnalyze = s.filesToAnalyze ∨
      s1.filesToAnalyze = s.filesToAnalyze ++ [contentTask b r.text] := by
  unfold pushIfJavascript at h
  split at h
  · cases h
  · cases h; exact Or.inr rfl
  · cases h; exact Or.inl rfl

/-- C11 at a JavaScript response with an empty body: the fetch of
`https://cdn.example.com/c.js` answering 200 with content type
`application/javascript` and the empty text enqueues a task without file path
whose content is the empty text; when this task is taken from the worklist
the test of `fileContent` fails, the file-extension test is applied to the
missing `filePath` and throws, in every world, and the build of the chain
`a.js`, `b.js`, external URL ends with that error. -/
theorem empty_body_task_throws :
    pushIfJavascript (seededState []) "https://cdn.example.com/c.js"
        { ok := true, contentType := some "application/javascript", text := "" }
      = .ok (seededState [contentTask "https://cdn.example.com/c.js" ""]) ∧
    (∀ (w : World) (baseUrl : String),
      taskUrls w (contentTask baseUrl "") = .error .typeError) ∧
    (∀ w : World,
      drainStep w "app" (seededState [contentTask "https://cdn.example.com/c.js" ""])
        = .error .typeError) ∧
    buildServiceWorker emptyBodyWorld plainContext "app" "/d" ["/d/a.js", "/d/b.js"] 4
      = .threw .typeError := by
  refine ⟨by rfl, taskUrls_content_empty, fun w => ?_, by rfl⟩
  simp [drainStep, seededState, taskUrls_content_empty]

/-! ## Glob patterns against manifest entries -/

theorem mem_entryUrls_add (w : World) (appName : String) (s : State) (u x : String)
    (h : x ∈ entryUrls (addToManifestEntries w appName s u)) :
    x ∈ entryUrls s ∨ (x = canonicalUrl appName u ∧ x ∉ s.globPatterns) := by
  unfold addToManifestEntries at h
  by_cases hc : (!s.globPatterns.contains (canonicalUrl appName u) &&
      !s.additionalManifestEntries.any (fun e => e.url == canonicalUrl appName u)) = true
  · simp only [hc, if_true] at h
    simp only [entryUrls, List.map_append, List.map_cons, List.map_nil, List.mem_append,
      List.mem_singleton] at h
    rcases h with h | h
    · exact Or.inl h
    · refine Or.inr ⟨h, ?_⟩
      intro hm
      rw [h] at hm
      have hcon : s.globPatterns.contains (canonicalUrl appName u) = true := by
        simpa using hm
      rw [hcon] at hc
      simp at hc
  · simp only [hc] at h
    exact Or.inl h

theorem forEachE_inv_mem {σ α : Type} (P : σ → Prop) (body : σ → α → Except JsError σ)
    (l : List α) :
    (∀ s a s1, a ∈ l → P s → body s a = .ok s1 → P s1) →
    ∀ (s s1 : σ), P s → forEachE body s l = .ok s1 → P s1 := by
  induction l with
  | nil =>
    intro _ s s1 hs h
    simp only [forEachE] at h
    cases h
    exact hs
  | cons a rest ih =>
    intro hbody s s1 hs h
    simp only [forEachE] at h
    cases hb : body s a with
    | error e => rw [hb] at h; cases h
    | ok s2 =>
      rw [hb] at h
      exact ih (fun t b t1 hm => hbody t b t1 (List.mem_cons_of_mem _ hm)) s2 s1
        (hbody s a s2 (List.mem_cons_self _ _) hs hb) h

theorem overlap_add (w : World) (appName : String) (R : List String) (s : State) (u : String)
    (h : ∀ x ∈ s.globPatterns, x ∈ entryUrls s → x ∈ R) :
    ∀ x ∈ (addToManifestEntries w appName s u).globPatterns,
      x ∈ entryUrls (addToManifestEntries w appName s u) → x ∈ R := by
  intro x hg he
  rw [addToManifestEntries_globPatterns] at hg
  rcases mem_entryUrls_add w appName s u x he with h1 | ⟨_, h2⟩
  · exact h x hg h1
  · exact absurd hg h2

theorem overlap_processUrl (w : World) (appName : String) (R : List String) (file : Task)
    (s : State) (u : JsVal) (s1 : State)
    (h : ∀ x ∈ s.globPatterns, x ∈ entryUrls s → x ∈ R)
    (hp : processUrl w appName file s u = .ok s1) :
    ∀ x ∈ s1.globPatterns, x ∈ entryUrls s1 → x ∈ R := by
  unfold processUrl at hp
  split at hp
  · rename_i url
    cases hr : resolveUrl w appName file s url with
    | error e => rw [hr] at hp; cases hp
    | ok p =>
      obtain ⟨s2, fullUrl⟩ := p
      rw [hr] at hp
      cases hp
      obtain ⟨he, hg, _⟩ := resolveUrl_entries w appName file s s2 url fullUrl hr
      apply overlap_add
      intro x hx hxe
      rw [hg] at hx
      unfold entryUrls at hxe
      rw [he] at hxe
      exact h x hx hxe
  · cases hp

theorem overlap_drainStep (w : World) (appName : String) (R : List String) (s s1 : State)
    (h : ∀ x ∈ s.globPatterns, x ∈ entryUrls s → x ∈ R)
    (hd : drainStep w appName s = .ok s1) :
    ∀ x ∈ s1.globPatterns, x ∈ entryUrls s1 → x ∈ R := by
  unfold drainStep at hd
  split at hd
  · cases hd; exact h
  · rename_i file rest _
    split at hd
    · cases hd
    · rename_i urls _
      exact forEachE_inv (fun t => ∀ x ∈ t.globPatterns, x ∈ entryUrls t → x ∈ R)
        (processUrl w appName file)
        (fun a b c ha hb => overlap_processUrl w appName R file a b c ha hb) urls
        { s with filesToAnalyze := rest } s1 h hd

theorem overlap_drain (w : World) (appName : String) (R : List String) :
    ∀ (fuel : Nat) (s s1 : State), (∀ x ∈ s.globPatterns, x ∈ entryUrls s → x ∈ R) →
      drain w appName fuel s = .done s1 →
      ∀ x ∈ s1.globPatterns, x ∈ entryUrls s1 → x ∈ R := by
  intro fuel
  induction fuel with
  | zero =>
    intro s s1 hs h
    unfold drain at h
    split at h
    · cases h; exact hs
    · cases h
  | succ n ih =>
    intro s s1 hs h
    unfold drain at h
    split at h
    · cases h; exact hs
    · split at h
      · cases h
      · rename_i s2 hd
        exact ih s2 s1 (overlap_drainStep w appName R s s2 hs hd) h

theorem overlap_seedPlugins (w : World) (appName : String) (R : List String)
    (ps : List (String × PluginData)) :
    ∀ s : State, (∀ x ∈ s.globPatterns, x ∈ entryUrls s → x ∈ R) →
      ∀ x ∈ (ps.foldl (seedPlugin w appName) s).globPatterns,
        x ∈ entryUrls (ps.foldl (seedPlugin w appName) s) → x ∈ R := by
  induction ps with
  | nil => intro s hs; exact hs
  | cons p rest ih =>
    intro s hs
    rw [List.foldl_cons]
    apply ih
    unfold seedPlugin
    split
    · split
      · exact overlap_add w appName R s _ hs
      · exact hs
    · exact hs

theorem seedUrlToCache_registered (w : World) (appName : String) (R : List String)
    (s : State) (u : String) (s1 : State) (hu : canonicalUrl appName u ∈ R)
    (hs : s.globPatterns = [] ∧ ∀ x ∈ entryUrls s,
      x = "index.html" ∨ x = "/_openbamz_admin.js?appName=" ++ appName ∨ x ∈ R)
    (h : seedUrlToCache w appName s u = .ok s1) :
    s1.globPatterns = [] ∧ ∀ x ∈ entryUrls s1,
      x = "index.html" ∨ x = "/_openbamz_admin.js?appName=" ++ appName ∨ x ∈ R := by
  unfold seedUrlToCache at h
  dsimp only at h
  split at h
  · cases h
  · obtain ⟨he, hg, _⟩ := pushIfJavascript_entries _ _ _ _ h
    refine ⟨by rw [hg, addToManifestEntries_globPatterns]; exact hs.1, ?_⟩
    intro x hx
    unfold entryUrls at hx
    rw [he] at hx
    rcases mem_entryUrls_add w appName s u x hx with h1 | ⟨h2, _⟩
    · exact hs.2 x h1
    · exact Or.inr (Or.inr (by rw [h2]; exact hu))

theorem overlap_subset_registered (w : World) (ctx : AppContext) (appName dir : String)
    (files : List String) (fuel : Nat) (s : State)
    (hadmin : ∀ f ∈ files, w.pathRelative dir f ≠ "/_openbamz_admin.js?appName=" ++ appName)
    (h : buildServiceWorker w ctx appName dir files fuel = .done s) :
    ∀ x ∈ s.globPatterns, x ∈ entryUrls s → x ∈ registeredUrls ctx appName := by
  unfold buildServiceWorker at h
  split at h
  · cases h
  · rename_i sd hseed
    refine overlap_drain w appName _ fuel sd s ?_ h
    unfold seed at hseed
    split at hseed
    · cases hseed
    · rename_i s0 h0
      cases hseed
      apply overlap_seedPlugins
      have hJ := forEachE_inv_mem
        (fun t : State => t.globPatterns = [] ∧ ∀ x ∈ entryUrls t,
          x = "index.html" ∨ x = "/_openbamz_admin.js?appName=" ++ appName ∨
            x ∈ registeredUrls ctx appName)
        (seedUrlToCache w appName) (ctx.urlsToCache.getD [])
        (fun a u b hu ha hb => seedUrlToCache_registered w appName _ a u b
          (List.mem_map.2 ⟨u, hu, rfl⟩) ha hb)
        (initialState w appName) s0
        ⟨rfl, by
          intro x hx
          simp only [entryUrls, initialState, List.map_cons, List.map_nil, List.mem_cons,
            List.mem_singleton, List.not_mem_nil, or_false] at hx
          rcases hx with hx | hx
          · exact Or.inl hx
          · exact Or.inr (Or.inl hx)⟩ h0
      intro x hg he
      rw [(seedFiles_spec w dir files s0).1, hJ.1, List.nil_append] at hg
      unfold entryUrls at he
      rw [seedFiles_entries] at he
      obtain ⟨hmap, hkeep⟩ := List.mem_filter.1 hg
      obtain ⟨f, hf, hfx⟩ := List.mem_map.1 hmap
      simp only [Bool.and_eq_true, bne_iff_ne, ne_eq] at hkeep
      rcases hJ.2 x he with h1 | h1 | h1
      · exact absurd h1 hkeep.2
      · exact absurd (hfx.trans h1) (hadmin f hf)
      · exact h1

/-- C12 at an application for which the URL `app.js` is registered and whose
listing holds the file `app.js`: the registered URL is recorded while
`globPatterns` is still empty, the listing then adds the same string to
`globPatterns`, and the build hands `app.js` over both as a glob pattern and as
the `url` of an entry. -/
theorem registered_url_handed_twice :
    seed registeredWorld registeredContext "app" "/d" ["/d/app.js"]
      = .ok { registeredFinal with filesToAnalyze := [fileTask "app.js" "/d/app.js"] } ∧
    buildServiceWorker registeredWorld registeredContext "app" "/d" ["/d/app.js"] 1
      = .done registeredFinal ∧
    "app.js" ∈ registeredFinal.globPatterns ∧
    "app.js" ∈ entryUrls registeredFinal ∧
    handedTwice registeredFinal = ["app.js"] := by
  refine ⟨by rfl, by rfl, by decide, by decide, by decide⟩

end OpenBamzPwa
